import Mathlib

/-!
# Verification of the Context Studio dual-representation graph engine

This file gives a shallow embedding, in Lean 4, of the graph engine of the
Context Studio local server:

* `SPARQLService` (`graph/sparql_service.py`): builds an RDF-style triple set
  from a relational snapshot of `Layer` / `Domain` / `Term` /
  `TermRelationship` rows.
* `NetworkService` (`graph/network_service.py`): builds a directed labelled
  property graph (a `networkx.DiGraph`) from the same snapshot, and runs
  shortest-path, neighborhood and centrality queries over it.

Entity rows are embedded as structures whose nullable columns are `Option`s;
Python's rendering of `None` as the string `"None"` (as performed by
`str(None)` inside `rdflib.Literal`) is made explicit.  Third-party library
behaviour that the service code calls into (`rdflib`, `networkx`) is embedded
by its documented semantics: `rdflib.Graph` is a set of triples,
`networkx.DiGraph.add_edge` silently creates missing endpoint nodes with an
empty attribute dict, `nx.shortest_path` raises `NodeNotFound` for absent
endpoints and `NetworkXNoPath` when unreachable, and the centrality functions
follow their reference implementations (exact rational arithmetic stands in
for floating point).
-/

/- Batteries marks the `Rat` field operations `@[irreducible]`; the concrete
score computations in the witnesses below are checked by `decide`, which needs
them to unfold during elaboration (the kernel ignores reducibility). -/
attribute [local semireducible] Rat.mul Rat.add Rat.sub Rat.inv

/-! ## Python value helpers -/

/-- Python's `str(None)` is the string `"None"`; on a present string it is the
string itself.  `rdflib.Literal(x)` stores exactly this lexical form for a
string-or-`None` column value. -/
def pyStr : Option String → String
  | none => "None"
  | some s => s

/-- Python truthiness of an optional string column: `None` and `""` are falsy,
every other string is truthy.  This is the test performed by
`if layer.definition:` and friends. -/
def pyTruthy : Option String → Bool
  | none => false
  | some s => !(s == "")

/-! ## RDF triple model (rdflib embedding)

`rdflib.Graph` is a set of `(subject, predicate, object)` triples.  In the
service code every subject and every predicate is a `URIRef` (a plain string),
while objects are either `URIRef`s or `Literal`s.  Literals built from
strings, `datetime`s and ints carry different datatypes and so are pairwise
distinct RDF terms; we keep them in separate constructors. -/

inductive RDFTerm where
  | uri (s : String)
  | litStr (s : String)
  | litDate (s : String)
  | litInt (n : Int)
deriving DecidableEq, Repr

structure Triple where
  subj : String
  pred : String
  obj : RDFTerm
deriving DecidableEq, Repr

/-- `Literal(x)` for a string-or-`None` column (`rdflib.Literal(None)` yields
the literal `"None"`). -/
def strLiteral (o : Option String) : RDFTerm := .litStr (pyStr o)

/-- `Literal(x)` for the integer `version` column. -/
def intLiteral : Option Int → RDFTerm
  | none => .litStr "None"
  | some n => .litInt n

/-- The custom `cs:` vocabulary namespace of `SPARQLService._setup_namespaces`. -/
def vocabNS (s : String) : String := "http://context-studio.local/vocab/" ++ s

/-- The custom `entity:` namespace of `SPARQLService._setup_namespaces`. -/
def entityNS (s : String) : String := "http://context-studio.local/entity/" ++ s

def rdfType : String := "http://www.w3.org/1999/02/22-rdf-syntax-ns#type"
def rdfsLabel : String := "http://www.w3.org/2000/01/rdf-schema#label"
def rdfsComment : String := "http://www.w3.org/2000/01/rdf-schema#comment"
def skosBroader : String := "http://www.w3.org/2004/02/skos/core#broader"
def skosNarrower : String := "http://www.w3.org/2004/02/skos/core#narrower"
def dctermsCreated : String := "http://purl.org/dc/terms/created"
def dctermsModified : String := "http://purl.org/dc/terms/modified"

def layerUri (id : String) : String := entityNS ("layer/" ++ id)
def domainUri (id : String) : String := entityNS ("domain/" ++ id)
def termUri (id : String) : String := entityNS ("term/" ++ id)

/-! ## Relational snapshot (database/models.py)

Columns that are nullable in the SQLAlchemy model (or whose value a corrupt
snapshot could leave missing) are `Option`s.  `created_at` / `last_modified`
are `datetime`s, embedded as their (opaque) rendering; `version` is an `Int`.
-/

structure Layer where
  id : String
  title : Option String
  definition : Option String
  primary_predicate : Option String
  created_at : Option String
  last_modified : Option String
  version : Option Int
deriving DecidableEq, Repr

structure Domain where
  id : String
  layer_id : String
  title : Option String
  definition : Option String
  created_at : Option String
  last_modified : Option String
  version : Option Int
deriving DecidableEq, Repr

structure Term where
  id : String
  domain_id : String
  layer_id : String
  title : Option String
  definition : Option String
  parent_term_id : Option String
  created_at : Option String
  last_modified : Option String
  version : Option Int
deriving DecidableEq, Repr

structure TermRelationship where
  id : String
  source_term_id : String
  target_term_id : String
  predicate : String
  created_at : Option String
deriving DecidableEq, Repr

/-- The read-only snapshot of the four relational tables, as returned by the
`db_session.query(...).all()` calls. -/
structure Snapshot where
  layers : List Layer
  domains : List Domain
  terms : List Term
  relationships : List TermRelationship
deriving DecidableEq, Repr

/-! ## SPARQLService triple builders (graph/sparql_service.py) -/

/-- `SPARQLService._get_hierarchy_predicate`: the owning layer's
`primary_predicate` when the layer was found and the predicate is truthy,
otherwise the default `cs:is_a`. -/
def get_hierarchy_predicate : Option Layer → String
  | some l => if pyTruthy l.primary_predicate then vocabNS (pyStr l.primary_predicate) else vocabNS "is_a"
  | none => vocabNS "is_a"

/-- The triples added for one layer by `SPARQLService._add_layers`. -/
def layerTriples (l : Layer) : List Triple :=
  [⟨layerUri l.id, rdfType, .uri (vocabNS "Layer")⟩,
   ⟨layerUri l.id, rdfsLabel, strLiteral l.title⟩]
  ++ (if pyTruthy l.definition then [⟨layerUri l.id, rdfsComment, strLiteral l.definition⟩] else [])
  ++ (if pyTruthy l.primary_predicate then
        [⟨layerUri l.id, vocabNS "primaryPredicate", strLiteral l.primary_predicate⟩] else [])
  ++ (match l.created_at with
      | some d => [⟨layerUri l.id, dctermsCreated, .litDate d⟩]
      | none => [])
  ++ (match l.last_modified with
      | some d => [⟨layerUri l.id, dctermsModified, .litDate d⟩]
      | none => [])
  ++ [⟨layerUri l.id, vocabNS "version", intLiteral l.version⟩]

/-- The triples added for one domain by `SPARQLService._add_domains`.  Note
that the `rdfs:comment` triple is added unconditionally (no `if
domain.definition:` guard, unlike `_add_layers`), and that the hierarchy
predicate consults `layers` through the `Layer.id == domain.layer_id` query. -/
def domainTriples (layers : List Layer) (d : Domain) : List Triple :=
  [⟨domainUri d.id, rdfType, .uri (vocabNS "Domain")⟩,
   ⟨domainUri d.id, rdfsLabel, strLiteral d.title⟩,
   ⟨domainUri d.id, rdfsComment, strLiteral d.definition⟩,
   ⟨domainUri d.id, get_hierarchy_predicate (layers.find? (fun l => l.id == d.layer_id)),
      .uri (layerUri d.layer_id)⟩]
  ++ (match d.created_at with
      | some dt => [⟨domainUri d.id, dctermsCreated, .litDate dt⟩]
      | none => [])
  ++ (match d.last_modified with
      | some dt => [⟨domainUri d.id, dctermsModified, .litDate dt⟩]
      | none => [])
  ++ [⟨domainUri d.id, vocabNS "version", intLiteral d.version⟩]

/-- The triples added for one term by `SPARQLService._add_terms`. -/
def termTriples (layers : List Layer) (t : Term) : List Triple :=
  let pred := get_hierarchy_predicate (layers.find? (fun l => l.id == t.layer_id))
  [⟨termUri t.id, rdfType, .uri (vocabNS "Term")⟩,
   ⟨termUri t.id, rdfsLabel, strLiteral t.title⟩,
   ⟨termUri t.id, rdfsComment, strLiteral t.definition⟩,
   ⟨termUri t.id, pred, .uri (domainUri t.domain_id)⟩,
   ⟨termUri t.id, vocabNS "belongsToLayer", .uri (layerUri t.layer_id)⟩]
  ++ (if pyTruthy t.parent_term_id then
        [⟨termUri t.id, pred, .uri (termUri (pyStr t.parent_term_id))⟩,
         ⟨termUri t.id, skosBroader, .uri (termUri (pyStr t.parent_term_id))⟩,
         ⟨termUri (pyStr t.parent_term_id), skosNarrower, .uri (termUri t.id)⟩] else [])
  ++ (match t.created_at with
      | some dt => [⟨termUri t.id, dctermsCreated, .litDate dt⟩]
      | none => [])
  ++ (match t.last_modified with
      | some dt => [⟨termUri t.id, dctermsModified, .litDate dt⟩]
      | none => [])
  ++ [⟨termUri t.id, vocabNS "version", intLiteral t.version⟩]

/-- The triple added for one relationship by
`SPARQLService._add_term_relationships`. -/
def relationshipTriples (r : TermRelationship) : List Triple :=
  [⟨termUri r.source_term_id, vocabNS r.predicate, .uri (termUri r.target_term_id)⟩]

/-- `SPARQLService._build_graph`: the full triple set built from a snapshot.
The `rdflib.Graph` is a *set* of triples; this list is read up to membership
(`Graph.add` de-duplicates). -/
def buildRDFGraph (snap : Snapshot) : List Triple :=
  snap.layers.flatMap layerTriples
  ++ snap.domains.flatMap (domainTriples snap.layers)
  ++ snap.terms.flatMap (termTriples snap.layers)
  ++ snap.relationships.flatMap relationshipTriples

/-! ## NetworkX property graph model (graph/network_service.py)

A `networkx.DiGraph` keeps, per node, an attribute dict (insertion-ordered,
update-in-place — exactly a `List (String × AttrVal)` with in-place update),
and at most one directed edge per ordered node pair, also carrying an
attribute dict.  `add_node` merges attributes into an existing node;
`add_edge` silently creates missing endpoints with an *empty* attribute dict
and merges edge attributes. -/

inductive AttrVal where
  | vnone
  | vstr (s : String)
  | vdate (s : String)
  | vint (n : Int)
deriving DecidableEq, Repr

/-- An optional string column stored as a node attribute value (`None` stays
Python `None`, it is not stringified here). -/
def attrOf : Option String → AttrVal
  | none => .vnone
  | some s => .vstr s

def attrOfDate : Option String → AttrVal
  | none => .vnone
  | some s => .vdate s

def attrOfInt : Option Int → AttrVal
  | none => .vnone
  | some n => .vint n

abbrev Attrs := List (String × AttrVal)

structure NetGraph where
  nodes : List (String × Attrs)
  edges : List (String × String × Attrs)
deriving DecidableEq, Repr

def emptyNetGraph : NetGraph := ⟨[], []⟩

/-- Python dict update of a single key (insertion order preserved). -/
def updateAssoc (d : Attrs) (k : String) (v : AttrVal) : Attrs :=
  match d with
  | [] => [(k, v)]
  | (k', v') :: rest => if k' == k then (k, v) :: rest else (k', v') :: updateAssoc rest k v

/-- Python `dict.update` with a list of key/value pairs. -/
def updateAssocMany (d : Attrs) (upd : Attrs) : Attrs :=
  upd.foldl (fun acc kv => updateAssoc acc kv.1 kv.2) d

def hasNode (g : NetGraph) (n : String) : Bool :=
  g.nodes.any (fun p => p.1 == n)

/-- `DiGraph.add_node(n, **attrs)`. -/
def addNode (g : NetGraph) (n : String) (attrs : Attrs) : NetGraph :=
  if hasNode g n then
    { g with nodes := g.nodes.map (fun p => if p.1 == n then (p.1, updateAssocMany p.2 attrs) else p) }
  else
    { g with nodes := g.nodes ++ [(n, attrs)] }

/-- The silent node creation performed by `DiGraph.add_edge` for a missing
endpoint: the node is added with an empty attribute dict. -/
def ensureNode (g : NetGraph) (n : String) : NetGraph :=
  if hasNode g n then g else { g with nodes := g.nodes ++ [(n, [])] }

def hasEdge (g : NetGraph) (u v : String) : Bool :=
  g.edges.any (fun e => e.1 == u && e.2.1 == v)

/-- `DiGraph.add_edge(u, v, **attrs)`. -/
def addEdge (g : NetGraph) (u v : String) (attrs : Attrs) : NetGraph :=
  let g1 := ensureNode (ensureNode g u) v
  if hasEdge g1 u v then
    { g1 with edges := g1.edges.map (fun e => if e.1 == u && e.2.1 == v then (e.1, e.2.1, updateAssocMany e.2.2 attrs) else e) }
  else
    { g1 with edges := g1.edges ++ [(u, v, attrs)] }

/-! ### The build sequence of `NetworkService._build_graph`

`_build_graph` mutates `self.graph` in place: it first `clear()`s it and then
issues one `add_node` / `add_edge` call at a time.  We record the build as the
list of those primitive mutations so that the intermediate states a concurrent
reader of `self.graph` can observe are explicit. -/

inductive BuildOp where
  | node (id : String) (attrs : Attrs)
  | edge (u v : String) (attrs : Attrs)
deriving DecidableEq, Repr

def applyBuildOp (g : NetGraph) : BuildOp → NetGraph
  | .node n a => addNode g n a
  | .edge u v a => addEdge g u v a

def layerNodeAttrs (l : Layer) : Attrs :=
  [("type", .vstr "layer"), ("title", attrOf l.title), ("definition", attrOf l.definition),
   ("primary_predicate", attrOf l.primary_predicate), ("created_at", attrOfDate l.created_at),
   ("version", attrOfInt l.version), ("entity_id", .vstr l.id)]

def domainNodeAttrs (d : Domain) : Attrs :=
  [("type", .vstr "domain"), ("title", attrOf d.title), ("definition", attrOf d.definition),
   ("layer_id", .vstr d.layer_id), ("created_at", attrOfDate d.created_at),
   ("version", attrOfInt d.version), ("entity_id", .vstr d.id)]

def termNodeAttrs (t : Term) : Attrs :=
  [("type", .vstr "term"), ("title", attrOf t.title), ("definition", attrOf t.definition),
   ("domain_id", .vstr t.domain_id), ("layer_id", .vstr t.layer_id),
   ("parent_term_id", attrOf t.parent_term_id), ("created_at", attrOfDate t.created_at),
   ("version", attrOfInt t.version), ("entity_id", .vstr t.id)]

/-- The hierarchy predicate used by `NetworkService._add_hierarchical_edges`:
`layer.primary_predicate if layer and layer.primary_predicate else "is_a"`,
where `layer` is looked up by id. -/
def netHierPredicate (layers : List Layer) (lid : String) : String :=
  match layers.find? (fun l => l.id == lid) with
  | some l => if pyTruthy l.primary_predicate then pyStr l.primary_predicate else "is_a"
  | none => "is_a"

def hierEdgeAttrs (predicate rel : String) : Attrs :=
  [("type", .vstr "hierarchical"), ("predicate", .vstr predicate), ("relationship", .vstr rel)]

def relEdgeAttrs (r : TermRelationship) : Attrs :=
  [("type", .vstr "relationship"), ("predicate", .vstr r.predicate),
   ("relationship", .vstr "related_to"), ("created_at", attrOfDate r.created_at)]

/-- The primitive graph mutations issued by `NetworkService._build_graph`
after the initial `clear()`, in program order: layer nodes, domain nodes,
term nodes, hierarchical edges (domain→layer loop, then term loop emitting
the term→domain edge and, when `term.parent_term_id` is truthy, the
term→parent edge), then relationship edges. -/
def buildOpsCore (snap : Snapshot) : List BuildOp :=
  snap.layers.map (fun l => .node ("layer:" ++ l.id) (layerNodeAttrs l))
  ++ snap.domains.map (fun d => .node ("domain:" ++ d.id) (domainNodeAttrs d))
  ++ snap.terms.map (fun t => .node ("term:" ++ t.id) (termNodeAttrs t))
  ++ snap.domains.map (fun d =>
       .edge ("domain:" ++ d.id) ("layer:" ++ d.layer_id)
         (hierEdgeAttrs (netHierPredicate snap.layers d.layer_id) "belongs_to"))
  ++ snap.terms.flatMap (fun t =>
       .edge ("term:" ++ t.id) ("domain:" ++ t.domain_id)
         (hierEdgeAttrs (netHierPredicate snap.layers t.layer_id) "belongs_to")
       :: (if pyTruthy t.parent_term_id then
             [.edge ("term:" ++ t.id) ("term:" ++ pyStr t.parent_term_id)
                (hierEdgeAttrs (netHierPredicate snap.layers t.layer_id) "child_of")]
           else []))
  ++ snap.relationships.map (fun r =>
       .edge ("term:" ++ r.source_term_id) ("term:" ++ r.target_term_id) (relEdgeAttrs r))

/-- `NetworkService._build_graph`: the property graph built from a snapshot. -/
def buildNetworkGraph (snap : Snapshot) : NetGraph :=
  (buildOpsCore snap).foldl applyBuildOp emptyNetGraph

/-- The sequence of states of the live `self.graph` object that a reader can
observe during one `refresh()` call: the old graph (before the call), the
cleared empty graph (right after `self.graph.clear()`), and the state after
each individual `add_node` / `add_edge`, ending in the new graph. -/
def refreshStates (old : NetGraph) (snap : Snapshot) : List NetGraph :=
  old :: (buildOpsCore snap).scanl applyBuildOp emptyNetGraph

/-! ## Directed traversal primitives -/

/-- `DiGraph.successors(n)`: targets of the out-edges of `n`. -/
def successors (g : NetGraph) (n : String) : List String :=
  (g.edges.filter (fun e => e.1 == n)).map (fun e => e.2.1)

/-- `DiGraph.predecessors(n)`: sources of the in-edges of `n`. -/
def predecessors (g : NetGraph) (n : String) : List String :=
  (g.edges.filter (fun e => e.2.1 == n)).map (fun e => e.1)

/-- The neighbors followed in one hop of `NetworkService.get_neighbors` for a
given `direction` string: successors for `"out"`/`"both"`, predecessors for
`"in"`/`"both"` (any other string selects nothing). -/
def dirNeighbors (g : NetGraph) (direction : String) (n : String) : List String :=
  (if direction == "out" || direction == "both" then successors g n else [])
  ++ (if direction == "in" || direction == "both" then predecessors g n else [])

/-- One expansion step of a breadth-first ball: the ball itself plus all
selected one-hop neighbors of its members. -/
def stepBall (g : NetGraph) (dir : String) (l : List String) : List String :=
  (l ++ l.flatMap (dirNeighbors g dir)).dedup

/-- The breadth-first ball of radius `n` around `start`, following the edge
directions selected by `dir`: all nodes reachable in at most `n` selected
hops. -/
def ballD (g : NetGraph) (dir : String) (start : String) : Nat → List String
  | 0 => [start]
  | n + 1 => stepBall g dir (ballD g dir start n)

/-- A search bound that exceeds every attainable hop distance in `g`. -/
def distBound (g : NetGraph) : Nat := g.nodes.length + g.edges.length + 1

/-- Linear search for the least ball radius containing `target`, starting the
scan at radius `n` with `fuel` radii left to try. -/
def distDAux (g : NetGraph) (dir start target : String) : Nat → Nat → Option Nat
  | 0, _ => none
  | fuel + 1, n =>
    if target ∈ ballD g dir start n then some n else distDAux g dir start target fuel (n + 1)

/-- The selected-direction hop distance from `start` to `target`: the least
radius whose ball contains `target` (`none` if unreachable within the search
bound, in particular if unreachable at all). -/
def distD (g : NetGraph) (dir : String) (start target : String) : Option Nat :=
  distDAux g dir start target (distBound g) 0

/-! ## `NetworkService.find_shortest_path` -/

/-- The Python exception classes that the embedded operations can raise. The
first two are networkx's (`NodeNotFound` is *not* a subclass of
`NetworkXNoPath`, so `find_shortest_path`'s `except nx.NetworkXNoPath` does
not catch it); `valueError` is the builtin raised by `calculate_centrality`;
`pluginException` is rdflib's serializer-registry lookup failure;
`powerIterationFailed` is networkx's `PowerIterationFailedConvergence`. The
named errors `unknownMethodError` / `unsupportedFormatError` that the spec
postulates are included as possible classes so that the spec's demand can be
stated; the code never raises them. -/
inductive PyError where
  | nodeNotFound (msg : String)
  | networkXNoPath (msg : String)
  | valueError (msg : String)
  | pluginException (msg : String)
  | powerIterationFailed
  | unknownMethodError (method : String) (supported : List String)
  | unsupportedFormatError (format : String)
deriving DecidableEq, Repr

deriving instance DecidableEq for Except

/-- Backward reconstruction of a breadth-first shortest path: a path of length
exactly `n` from `start` to `t`, found by stepping back through the balls.
This stands in for the path assembled by `nx.bidirectional_shortest_path`. -/
def pathTo (g : NetGraph) (s : String) : Nat → String → Option (List String)
  | 0, t => if t == s then some [s] else none
  | n + 1, t =>
    match (ballD g "out" s n).find? (fun u => decide (t ∈ successors g u)) with
    | none => none
    | some u =>
      match pathTo g s n u with
      | none => none
      | some p => some (p ++ [t])

/-- `nx.shortest_path(G, source, target)` on an unweighted digraph: raises
`NodeNotFound` when either endpoint is absent, `NetworkXNoPath` when the
target is unreachable, otherwise returns one shortest path (source and target
included). -/
def nxShortestPath (g : NetGraph) (s t : String) : Except PyError (List String) :=
  if hasNode g s && hasNode g t then
    match distD g "out" s t with
    | some n =>
      match pathTo g s n t with
      | some p => .ok p
      | none => .error (.networkXNoPath ("No path between " ++ s ++ " and " ++ t ++ "."))
    | none => .error (.networkXNoPath ("No path between " ++ s ++ " and " ++ t ++ "."))
  else
    .error (.nodeNotFound ("Either source " ++ s ++ " or target " ++ t ++ " is not in G"))

/-- `NetworkService.find_shortest_path`: builds the two node keys, calls
`nx.shortest_path` and converts only a `NetworkXNoPath` failure into `None`;
any other exception (in particular `NodeNotFound` for an absent key)
propagates to the caller. -/
def find_shortest_path (g : NetGraph) (source_id target_id source_type target_type : String) :
    Except PyError (Option (List String)) :=
  match nxShortestPath g (source_type ++ ":" ++ source_id) (target_type ++ ":" ++ target_id) with
  | .ok p => .ok (some p)
  | .error (.networkXNoPath _) => .ok none
  | .error e => .error e

/-! ## `NetworkService.get_neighbors` -/

/-- The loop body of `NetworkService.get_neighbors`: at depth `d` it collects
the selected neighbors of the current level as a set, removes already visited
nodes, and either stops (no new nodes) or records the level and recurses. The
fuel is the number of remaining iterations of `for d in range(1, depth+1)`. -/
def neighborsLoop (g : NetGraph) (dir : String) :
    Nat → Nat → List String → List String → List (String × List String)
  | 0, _, _, _ => []
  | fuel + 1, d, current, visited =>
    let next := ((current.flatMap (dirNeighbors g dir)).dedup).filter (fun x => !(visited.contains x))
    if next.isEmpty then []
    else ("depth_" ++ toString d, next) :: neighborsLoop g dir fuel (d + 1) next (visited ++ next)

/-- `NetworkService.get_neighbors`: `{}` when the node key is absent,
otherwise the per-depth levels produced by breadth-first expansion. The
Python result is a dict from `"depth_d"` keys to lists; levels are produced
in increasing depth order, so the insertion-ordered dict is this list. -/
def get_neighbors (g : NetGraph) (entity_id entity_type : String) (depth : Nat) (direction : String) :
    List (String × List String) :=
  let node_id := entity_type ++ ":" ++ entity_id
  if hasNode g node_id then neighborsLoop g direction depth 1 [node_id] [node_id]
  else []

/-! ## Centrality (networkx algorithms, exact rational arithmetic) -/

def nodeKeys (g : NetGraph) : List String := g.nodes.map Prod.fst

def outDegree (g : NetGraph) (u : String) : Nat :=
  (g.edges.filter (fun e => e.1 == u)).length

def inDegree (g : NetGraph) (u : String) : Nat :=
  (g.edges.filter (fun e => e.2.1 == u)).length

/-- `nx.degree_centrality`: every node scores `1` on a graph with at most one
node; otherwise each node scores `(in-degree + out-degree) / (n - 1)`. -/
def degreeCentrality (g : NetGraph) : List (String × ℚ) :=
  if g.nodes.length ≤ 1 then (nodeKeys g).map (fun u => (u, 1))
  else (nodeKeys g).map (fun u =>
    (u, ((inDegree g u + outDegree g u : ℕ) : ℚ) / ((g.nodes.length : ℚ) - 1)))

/-- `nx.closeness_centrality` with the default Wasserman–Faust improvement on
a digraph measures *incoming* distance (the graph is reversed first): with
`r` the number of nodes that reach `u` (including `u`), `totsp` the sum of
their distances to `u`, and `n` the node count, the score is
`(r-1)^2 / (totsp * (n-1))` when `totsp > 0` and `n > 1`, else `0`. -/
def closenessCentrality (g : NetGraph) : List (String × ℚ) :=
  (nodeKeys g).map (fun u =>
    let reach := (nodeKeys g).filter (fun v => (distD g "in" u v).isSome)
    let totsp : Nat := (reach.map (fun v => (distD g "in" u v).getD 0)).sum
    let r := reach.length
    let n := g.nodes.length
    (u, if 0 < totsp ∧ 1 < n then ((r : ℚ) - 1) ^ 2 / ((totsp : ℚ) * ((n : ℚ) - 1)) else 0))

/-- The number of directed walks of length exactly `n` from `s` to `t` whose
penultimate vertex lies in the radius-`(n-1)` ball (for `t` at distance
exactly `n` this is the number of shortest `s`–`t` paths, the `σ_st` of the
betweenness definition). -/
def countPathsLen (g : NetGraph) (s : String) : Nat → String → Nat
  | 0, t => if t == s then 1 else 0
  | n + 1, t =>
    (((ballD g "out" s n).filter (fun u => decide (t ∈ successors g u))).map
      (fun u => countPathsLen g s n u)).sum

/-- `σ_st`: the number of shortest directed paths from `s` to `t` (0 when
unreachable). -/
def sigmaPaths (g : NetGraph) (s t : String) : Nat :=
  match distD g "out" s t with
  | some n => countPathsLen g s n t
  | none => 0

/-- `σ_st(v)`: the number of shortest `s`–`t` paths passing through `v`. -/
def sigmaThrough (g : NetGraph) (s v t : String) : Nat :=
  match distD g "out" s v, distD g "out" v t, distD g "out" s t with
  | some a, some b, some c => if a + b = c then sigmaPaths g s v * sigmaPaths g v t else 0
  | _, _, _ => 0

/-- `nx.betweenness_centrality` (normalized, directed): the fraction of
shortest paths through each node, summed over ordered pairs of distinct
endpoints different from the node, rescaled by `1/((n-1)(n-2))` when
`n > 2`. -/
def betweennessCentrality (g : NetGraph) : List (String × ℚ) :=
  let scale : ℚ :=
    if 2 < g.nodes.length then 1 / (((g.nodes.length : ℚ) - 1) * ((g.nodes.length : ℚ) - 2)) else 1
  (nodeKeys g).map (fun v =>
    (v, scale * (((nodeKeys g).flatMap (fun s => (nodeKeys g).map (fun t => (s, t)))).map
          (fun st =>
            if st.1 ≠ v ∧ st.2 ≠ v ∧ st.1 ≠ st.2 ∧ sigmaPaths g st.1 st.2 ≠ 0 then
              (sigmaThrough g st.1 v st.2 : ℚ) / (sigmaPaths g st.1 st.2 : ℚ)
            else 0)).sum))

/-- Value lookup in a rational-valued score map (Python `dict` access). -/
def lookupQ (m : List (String × ℚ)) (k : String) : ℚ :=
  ((m.find? (fun p => p.1 == k)).map Prod.snd).getD 0

/-- The number of parallel `u → v` edges (0 or 1 in a `DiGraph`). -/
def countEdges (g : NetGraph) (u v : String) : Nat :=
  (g.edges.filter (fun e => e.1 == u && e.2.1 == v)).length

/-- One power iteration of `nx.pagerank` with damping `alpha`: mass flows
along out-edges of non-dangling nodes (each edge carrying `1/outdeg`), the
mass of dangling nodes and the teleport share `1 - alpha` are redistributed
uniformly. -/
def prIterate (g : NetGraph) (nodesL : List String) (alpha : ℚ) (xlast : List (String × ℚ)) :
    List (String × ℚ) :=
  let p : ℚ := 1 / (nodesL.length : ℚ)
  let danglesum : ℚ :=
    alpha * ((nodesL.filter (fun u => outDegree g u == 0)).map (fun u => lookupQ xlast u)).sum
  nodesL.map (fun v =>
    (v, alpha * ((nodesL.filter (fun u => outDegree g u != 0)).map
          (fun u => lookupQ xlast u * (countEdges g u v : ℚ) / (outDegree g u : ℚ))).sum
        + danglesum * p + (1 - alpha) * p))

/-- The convergence loop of `nx.pagerank`: iterate until the L1 change drops
below `n * tol`, raising `PowerIterationFailedConvergence` when the iteration
budget (`max_iter = 100`) is exhausted. -/
def pagerankLoop (g : NetGraph) (nodesL : List String) (alpha tol : ℚ) :
    Nat → List (String × ℚ) → Except PyError (List (String × ℚ))
  | 0, _ => .error .powerIterationFailed
  | fuel + 1, x =>
    let x' := prIterate g nodesL alpha x
    let err : ℚ := (nodesL.map (fun v => |lookupQ x' v - lookupQ x v|)).sum
    if err < (nodesL.length : ℚ) * tol then .ok x'
    else pagerankLoop g nodesL alpha tol fuel x'

/-- `nx.pagerank(G)` with its default parameters (`alpha = 0.85`,
`tol = 1e-6`, `max_iter = 100`, uniform start and teleport vectors). -/
def nxPagerank (g : NetGraph) : Except PyError (List (String × ℚ)) :=
  let nodesL := nodeKeys g
  if nodesL.isEmpty then .ok []
  else
    pagerankLoop g nodesL (85 / 100) (1 / 1000000) 100
      (nodesL.map (fun v => (v, 1 / (nodesL.length : ℚ))))

def supportedCentralityMethods : List String := ["pagerank", "betweenness", "closeness", "degree"]

/-- `NetworkService.calculate_centrality`: dispatch on the method string; an
unknown method raises the builtin `ValueError` with the f-string message
`f"Unknown centrality method: {method}"`. -/
def calculate_centrality (g : NetGraph) (method : String) : Except PyError (List (String × ℚ)) :=
  if method == "pagerank" then nxPagerank g
  else if method == "betweenness" then .ok (betweennessCentrality g)
  else if method == "closeness" then .ok (closenessCentrality g)
  else if method == "degree" then .ok (degreeCentrality g)
  else .error (.valueError ("Unknown centrality method: " ++ method))

/-! ## `SPARQLService.serialize` -/

/-- The serializer format names registered by rdflib's plugin table (the
name set that `Graph.serialize(format=...)` accepts). -/
def rdflibSerializerFormats : List String :=
  ["turtle", "ttl", "longturtle", "xml", "pretty-xml", "n3", "nt", "nt11", "ntriples",
   "trig", "trix", "json-ld", "hext"]

def rdfTermText : RDFTerm → String
  | .uri s => "<" ++ s ++ ">"
  | .litStr s => "\x22" ++ s ++ "\x22"
  | .litDate s => "\x22" ++ s ++ "\x22"
  | .litInt n => toString n

/-- A line-per-triple rendering of the graph, standing in for the text an
rdflib serializer produces (no claim constrains the successful text's exact
shape, only which formats succeed). -/
def renderTriples (triples : List Triple) : String :=
  String.intercalate "\n"
    (triples.map (fun t => "<" ++ t.subj ++ "> <" ++ t.pred ++ "> " ++ rdfTermText t.obj ++ " ."))

/-- `SPARQLService.serialize`: delegates to `rdflib.Graph.serialize`, whose
plugin lookup raises rdflib's `PluginException` (not any error class of this
codebase) for a format name with no registered serializer. -/
def serialize (triples : List Triple) (format : String) : Except PyError String :=
  if format ∈ rdflibSerializerFormats then .ok (renderTriples triples)
  else
    .error (.pluginException
      ("No plugin registered for (" ++ format ++ ", <class 'rdflib.serializer.Serializer'>)"))

/-! ## Concrete snapshots used as test inputs -/

/-- A single layer with the default-free predicate `is_a`. -/
def exLayer : Layer := ⟨"L1", some "Layer One", some "layer def", some "is_a", none, none, some 1⟩

/-- A snapshot holding just `exLayer`. -/
def exSnapLayer : Snapshot := ⟨[exLayer], [], [], []⟩

/-- A relationship chain `a → b → c` (term ids only, no term rows). -/
def exSnapChain : Snapshot :=
  ⟨[], [], [], [⟨"r1", "a", "b", "p", none⟩, ⟨"r2", "b", "c", "p", none⟩]⟩

/-- A reciprocal pair of relationships `a → b` and `b → a`. -/
def exSnapCycle : Snapshot :=
  ⟨[], [], [], [⟨"r1", "a", "b", "p", none⟩, ⟨"r2", "b", "a", "p", none⟩]⟩

/-! ## C1 — refresh is not an atomic reference swap

`NetworkService._build_graph` starts with `self.graph.clear()` and then adds
nodes and edges one call at a time to the *same live object*
(`SPARQLService._build_graph` likewise rebinds `self.graph` to a fresh empty
`Graph()` and then populates it in place).  The cleared empty graph is an
observable intermediate state that is neither the old nor the new graph. -/

/-- C1 (claim as stated, refuted): during a `refresh()` with old state built
from `exSnapLayer` and new data `exSnapChain`, the live property graph passes
through the empty graph, which is neither the entirely-old nor the
entirely-new graph. -/
theorem refresh_observes_partial_state :
    emptyNetGraph ∈ refreshStates (buildNetworkGraph exSnapLayer) exSnapChain
    ∧ emptyNetGraph ≠ buildNetworkGraph exSnapLayer
    ∧ emptyNetGraph ≠ buildNetworkGraph exSnapChain := by
  decide

/-- C1 (amended): whenever the old graph and the newly built graph are both
non-empty, a reader of the live graph during `refresh()` can observe an
intermediate state (the cleared graph) that differs from both. -/
theorem refresh_mutates_in_place (old : NetGraph) (snap : Snapshot)
    (hold : old.nodes ≠ []) (hnew : (buildNetworkGraph snap).nodes ≠ []) :
    ∃ g ∈ refreshStates old snap, g ≠ old ∧ g ≠ buildNetworkGraph snap := by
  refine ⟨emptyNetGraph, ?_, ?_, ?_⟩
  · show emptyNetGraph ∈ old :: (buildOpsCore snap).scanl applyBuildOp emptyNetGraph
    have h : emptyNetGraph ∈ (buildOpsCore snap).scanl applyBuildOp emptyNetGraph := by
      cases buildOpsCore snap <;> simp [List.scanl]
    exact List.mem_cons_of_mem _ h
  · intro h; exact hold (by rw [← h]; rfl)
  · intro h; exact hnew (by rw [← h]; rfl)

/-- Witness for `refresh_mutates_in_place` at the concrete snapshots. -/
theorem refresh_mutates_in_place_witness :
    ∃ g ∈ refreshStates (buildNetworkGraph exSnapLayer) exSnapChain,
      g ≠ buildNetworkGraph exSnapLayer ∧ g ≠ buildNetworkGraph exSnapChain :=
  refresh_mutates_in_place (buildNetworkGraph exSnapLayer) exSnapChain
    (by decide) (by decide)

/-! ## C4 — unknown method / format error classes

`calculate_centrality` raises the generic builtin `ValueError` (its message
names the offending method but not the supported list), and `serialize`
surfaces rdflib's `PluginException`; neither is a named `UnknownMethodError`
or `UnsupportedFormatError`, and neither input is silently defaulted. -/

/-- C4 (claim as stated, refuted): `centrality("bogus")` fails with a generic
`ValueError`, not a named `UnknownMethodError` carrying the supported list,
and `serialize("bogus")` fails with rdflib's `PluginException`, not a named
`UnsupportedFormatError`. -/
theorem unknown_method_error_is_generic :
    calculate_centrality emptyNetGraph "bogus"
      = .error (.valueError "Unknown centrality method: bogus")
    ∧ (∀ name sup, calculate_centrality emptyNetGraph "bogus"
        ≠ .error (.unknownMethodError name sup))
    ∧ serialize [] "bogus"
      = .error (.pluginException "No plugin registered for (bogus, <class 'rdflib.serializer.Serializer'>)")
    ∧ (∀ f, serialize [] "bogus" ≠ .error (.unsupportedFormatError f)) := by
  refine ⟨rfl, ?_, rfl, ?_⟩ <;> intros <;> simp [calculate_centrality, serialize, rdflibSerializerFormats]

/-- C4 (amended): every method string outside the supported set is rejected
with `ValueError` whose message names the offending method (but carries no
supported-name list), and every format string outside rdflib's registered
serializers is rejected with rdflib's `PluginException` naming the value;
neither input is silently defaulted to a fallback computation. -/
theorem unknown_method_and_format_rejected (g : NetGraph) (triples : List Triple)
    (method format : String)
    (hm : method ∉ supportedCentralityMethods) (hf : format ∉ rdflibSerializerFormats) :
    calculate_centrality g method
      = .error (.valueError ("Unknown centrality method: " ++ method))
    ∧ serialize triples format
      = .error (.pluginException
          ("No plugin registered for (" ++ format ++ ", <class 'rdflib.serializer.Serializer'>)")) := by
  constructor
  · have h1 : method ≠ "pagerank" := by rintro rfl; exact hm (by decide)
    have h2 : method ≠ "betweenness" := by rintro rfl; exact hm (by decide)
    have h3 : method ≠ "closeness" := by rintro rfl; exact hm (by decide)
    have h4 : method ≠ "degree" := by rintro rfl; exact hm (by decide)
    simp [calculate_centrality, h1, h2, h3, h4]
  · simp [serialize, hf]

/-- Witness for `unknown_method_and_format_rejected` at `"bogus"`. -/
theorem unknown_method_and_format_rejected_witness :
    calculate_centrality emptyNetGraph "bogus"
      = .error (.valueError ("Unknown centrality method: " ++ "bogus"))
    ∧ serialize [] "bogus"
      = .error (.pluginException
          ("No plugin registered for (" ++ "bogus" ++ ", <class 'rdflib.serializer.Serializer'>)")) :=
  unknown_method_and_format_rejected emptyNetGraph [] "bogus" "bogus" (by decide) (by decide)

/-! ## Breadth-first ball lemmas -/

theorem mem_stepBall {g : NetGraph} {dir : String} {l : List String} {x : String} :
    x ∈ stepBall g dir l ↔ x ∈ l ∨ ∃ u ∈ l, x ∈ dirNeighbors g dir u := by
  simp [stepBall, List.mem_dedup, List.mem_append, List.mem_flatMap]

theorem mem_ballD_succ {g : NetGraph} {dir s : String} {n : Nat} {x : String} :
    x ∈ ballD g dir s (n + 1) ↔
      x ∈ ballD g dir s n ∨ ∃ u ∈ ballD g dir s n, x ∈ dirNeighbors g dir u := by
  simp [ballD, mem_stepBall]

theorem ballD_subset_succ {g : NetGraph} {dir s : String} {n : Nat} {x : String}
    (h : x ∈ ballD g dir s n) : x ∈ ballD g dir s (n + 1) :=
  mem_ballD_succ.mpr (Or.inl h)

theorem ballD_mono {g : NetGraph} {dir s : String} {m n : Nat} (hmn : m ≤ n) {x : String}
    (h : x ∈ ballD g dir s m) : x ∈ ballD g dir s n := by
  induction hmn with
  | refl => exact h
  | step _ ih => exact ballD_subset_succ ih

theorem stepBall_congr {g : NetGraph} {dir : String} {a b : List String}
    (h : ∀ x, x ∈ a ↔ x ∈ b) : ∀ x, x ∈ stepBall g dir a ↔ x ∈ stepBall g dir b := by
  intro x
  simp only [mem_stepBall]
  constructor
  · rintro (hx | ⟨u, hu, hx⟩)
    · exact Or.inl ((h x).mp hx)
    · exact Or.inr ⟨u, (h u).mp hu, hx⟩
  · rintro (hx | ⟨u, hu, hx⟩)
    · exact Or.inl ((h x).mpr hx)
    · exact Or.inr ⟨u, (h u).mpr hu, hx⟩

/-- Once one breadth-first expansion step adds nothing new, the ball is stable
forever. -/
theorem ballD_stabilizes {g : NetGraph} {dir s : String} {n : Nat}
    (h : ∀ x, x ∈ ballD g dir s (n + 1) ↔ x ∈ ballD g dir s n) :
    ∀ k x, x ∈ ballD g dir s (n + k) ↔ x ∈ ballD g dir s n := by
  intro k
  induction k with
  | zero => intro x; rfl
  | succ k ih =>
    intro x
    have : x ∈ ballD g dir s (n + k + 1) ↔ x ∈ ballD g dir s (n + 1) :=
      stepBall_congr ih x
    exact (this.trans (h x))

/-- Membership at exact breadth-first depth `k`: inside the radius-`k` ball
but in no smaller ball. -/
def inSphere (g : NetGraph) (dir s : String) (k : Nat) (x : String) : Prop :=
  x ∈ ballD g dir s k ∧ ∀ j < k, x ∉ ballD g dir s j

/-- Unfolding equation of `neighborsLoop` for positive fuel. -/
theorem neighborsLoop_succ (g : NetGraph) (dir : String) (fuel d : Nat)
    (current visited : List String) :
    neighborsLoop g dir (fuel + 1) d current visited =
      (let next := ((current.flatMap (dirNeighbors g dir)).dedup).filter
          (fun x => !(visited.contains x))
       if next.isEmpty then []
       else ("depth_" ++ toString d, next) :: neighborsLoop g dir fuel (d + 1) next (visited ++ next)) :=
  rfl

/-- The workhorse invariant of `NetworkService.get_neighbors`: if `current`
is exactly the depth-`k` sphere and `visited` exactly the radius-`k` ball,
then the remaining loop produces, level by level, exactly the non-empty
spheres `k+1`, `k+2`, …, stopping at the fuel limit or at the first empty
sphere. -/
theorem neighborsLoop_spec (g : NetGraph) (dir s : String) :
    ∀ (fuel k : Nat) (current visited : List String),
    (∀ x, x ∈ current ↔ inSphere g dir s k x) →
    (∀ x, x ∈ visited ↔ x ∈ ballD g dir s k) →
    (neighborsLoop g dir fuel (k + 1) current visited).length ≤ fuel
    ∧ (∀ i, i < (neighborsLoop g dir fuel (k + 1) current visited).length →
        ∃ l, (neighborsLoop g dir fuel (k + 1) current visited).get? i
              = some ("depth_" ++ toString (k + 1 + i), l)
          ∧ l ≠ [] ∧ ∀ x, (x ∈ l ↔ inSphere g dir s (k + 1 + i) x))
    ∧ ((neighborsLoop g dir fuel (k + 1) current visited).length < fuel →
        ∀ x, ¬ inSphere g dir s (k + 1 + (neighborsLoop g dir fuel (k + 1) current visited).length) x) := by
  intro fuel
  induction fuel with
  | zero =>
    intro k current visited _ _
    refine ⟨Nat.le_refl 0, ?_, ?_⟩
    · intro i hi; simp [neighborsLoop] at hi
    · intro h; exact absurd h (by simp [neighborsLoop])
  | succ fuel ih =>
    intro k current visited hcur hvis
    have hnext : ∀ x,
        x ∈ ((current.flatMap (dirNeighbors g dir)).dedup).filter (fun x => !(visited.contains x))
          ↔ inSphere g dir s (k + 1) x := by
      intro x
      constructor
      · intro hx
        have hmem := List.of_mem_filter hx
        have hx' := List.mem_of_mem_filter hx
        have hnv : x ∉ visited := by
          simpa using hmem
        rw [List.mem_dedup, List.mem_flatMap] at hx'
        obtain ⟨u, hu, hxu⟩ := hx'
        have husph := (hcur u).mp hu
        refine ⟨mem_ballD_succ.mpr (Or.inr ⟨u, husph.1, hxu⟩), ?_⟩
        intro j hj hxj
        exact hnv ((hvis x).mpr (ballD_mono (Nat.le_of_lt_succ hj) hxj))
      · rintro ⟨hball, hleast⟩
        have hnk : x ∉ ballD g dir s k := hleast k (Nat.lt_succ_self k)
        rcases mem_ballD_succ.mp hball with hk | ⟨u, hu, hxu⟩
        · exact absurd hk hnk
        · have husph : inSphere g dir s k u := by
            refine ⟨hu, ?_⟩
            intro j hj huj
            exact hnk (ballD_mono hj (mem_ballD_succ.mpr (Or.inr ⟨u, huj, hxu⟩)))
          refine List.mem_filter.mpr ⟨?_, ?_⟩
          · rw [List.mem_dedup, List.mem_flatMap]
            exact ⟨u, (hcur u).mpr husph, hxu⟩
          · have : x ∉ visited := fun hxv => hnk ((hvis x).mp hxv)
            simp [this]
    by_cases hempty :
        ((current.flatMap (dirNeighbors g dir)).dedup).filter (fun x => !(visited.contains x)) = []
    · have hloop : neighborsLoop g dir (fuel + 1) (k + 1) current visited = [] := by
        rw [neighborsLoop_succ]
        simp only [hempty]
        rfl
      refine ⟨by simp [hloop], ?_, ?_⟩
      · intro i hi; simp [hloop] at hi
      · intro _ x hx
        have hx' : x ∈ ((current.flatMap (dirNeighbors g dir)).dedup).filter
            (fun x => !(visited.contains x)) := (hnext x).mpr (by simpa [hloop] using hx)
        rw [hempty] at hx'
        exact absurd hx' (List.not_mem_nil x)
    · set next := ((current.flatMap (dirNeighbors g dir)).dedup).filter
        (fun x => !(visited.contains x)) with hnextdef
      have hloop : neighborsLoop g dir (fuel + 1) (k + 1) current visited
          = ("depth_" ++ toString (k + 1), next)
            :: neighborsLoop g dir fuel (k + 2) next (visited ++ next) := by
        rw [neighborsLoop_succ]
        simp only [← hnextdef]
        rw [if_neg (by simp [List.isEmpty_iff, hempty])]
      have hvis' : ∀ x, x ∈ visited ++ next ↔ x ∈ ballD g dir s (k + 1) := by
        intro x
        rw [List.mem_append]
        constructor
        · rintro (hx | hx)
          · exact ballD_subset_succ ((hvis x).mp hx)
          · exact ((hnext x).mp hx).1
        · intro hx
          by_cases hv : x ∈ visited
          · exact Or.inl hv
          · refine Or.inr ((hnext x).mpr ⟨hx, ?_⟩)
            intro j hj hxj
            exact hv ((hvis x).mpr (ballD_mono (Nat.le_of_lt_succ hj) hxj))
      obtain ⟨ihlen, ihget, ihstop⟩ := ih (k + 1) next (visited ++ next) hnext hvis'
      refine ⟨?_, ?_, ?_⟩
      · rw [hloop]
        simpa using Nat.succ_le_succ ihlen
      · intro i hi
        rw [hloop]
        match i with
        | 0 =>
          exact ⟨next, by simp, hempty, by simpa using hnext⟩
        | i + 1 =>
          rw [hloop] at hi
          simp only [List.length_cons, Nat.add_lt_add_iff_right] at hi
          obtain ⟨l, hget, hne, hmem⟩ := ihget i hi
          rw [show k + 1 + (i + 1) = k + 1 + 1 + i by omega]
          exact ⟨l, by simpa using hget, hne, hmem⟩
      · intro hlt
        rw [hloop] at hlt ⊢
        simp only [List.length_cons, Nat.add_lt_add_iff_right] at hlt
        intro x
        simp only [List.length_cons]
        rw [show k + 1 + ((neighborsLoop g dir fuel (k + 2) next (visited ++ next)).length + 1)
              = k + 1 + 1 + (neighborsLoop g dir fuel (k + 2) next (visited ++ next)).length
            by omega]
        exact ihstop hlt x

/-! ## C7 — `get_neighbors` is depth-levelled breadth-first expansion

The spec's direction names incoming/outgoing/both are the code's `"in"` /
`"out"` / `"both"` strings.  For a present node key and `depth ≥ 1` the
result lists, in increasing depth order, exactly the non-empty sets of nodes
whose first visit is at that depth (the start node, at depth 0, never
appears), and stops as soon as a level yields no new nodes. -/

/-- C7: `get_neighbors` levels are exactly the breadth-first spheres of the
selected direction: level `i+1` (labelled `"depth_(i+1)"`) holds precisely
the nodes inside the radius-`(i+1)` ball and outside every smaller ball, each
level is non-empty, at most `depth` levels are produced, and if expansion
stopped before `depth` the next sphere is empty (so no nodes are lost by
stopping early). -/
theorem get_neighbors_bfs_levels (g : NetGraph) (entity_id entity_type : String)
    (depth : Nat) (direction : String)
    (hdir : direction = "in" ∨ direction = "out" ∨ direction = "both")
    (hnode : hasNode g (entity_type ++ ":" ++ entity_id) = true) :
    (get_neighbors g entity_id entity_type depth direction).length ≤ depth
    ∧ (∀ i, i < (get_neighbors g entity_id entity_type depth direction).length →
        ∃ l, (get_neighbors g entity_id entity_type depth direction).get? i
              = some ("depth_" ++ toString (i + 1), l)
          ∧ l ≠ []
          ∧ ∀ x, (x ∈ l ↔ inSphere g direction (entity_type ++ ":" ++ entity_id) (i + 1) x))
    ∧ ((get_neighbors g entity_id entity_type depth direction).length < depth →
        ∀ x, ¬ inSphere g direction (entity_type ++ ":" ++ entity_id)
              ((get_neighbors g entity_id entity_type depth direction).length + 1) x) := by
  have hout : get_neighbors g entity_id entity_type depth direction
      = neighborsLoop g direction depth (0 + 1)
          [entity_type ++ ":" ++ entity_id] [entity_type ++ ":" ++ entity_id] := by
    simp [get_neighbors, hnode]
  obtain ⟨h1, h2, h3⟩ := neighborsLoop_spec g direction (entity_type ++ ":" ++ entity_id)
    depth 0 [entity_type ++ ":" ++ entity_id] [entity_type ++ ":" ++ entity_id]
    (fun x => by simp [inSphere, ballD]) (fun x => by simp [ballD])
  rw [hout]
  refine ⟨h1, ?_, ?_⟩
  · intro i hi
    obtain ⟨l, hget, hne, hmem⟩ := h2 i hi
    rw [show i + 1 = 0 + 1 + i by omega]
    exact ⟨l, hget, hne, hmem⟩
  · intro hlt x
    rw [show (neighborsLoop g direction depth (0 + 1)
          [entity_type ++ ":" ++ entity_id] [entity_type ++ ":" ++ entity_id]).length + 1
        = 0 + 1 + (neighborsLoop g direction depth (0 + 1)
          [entity_type ++ ":" ++ entity_id] [entity_type ++ ":" ++ entity_id]).length by omega]
    exact h3 hlt x

/-- Witness for `get_neighbors_bfs_levels`, together with the claim's concrete
`A→B`, `B→C` examples. -/
theorem get_neighbors_bfs_levels_witness :
    (get_neighbors (buildNetworkGraph exSnapChain) "b" "term" 1 "out").length ≤ 1
    ∧ get_neighbors (buildNetworkGraph exSnapChain) "b" "term" 1 "out"
        = [("depth_1", ["term:c"])]
    ∧ get_neighbors (buildNetworkGraph exSnapChain) "b" "term" 1 "in"
        = [("depth_1", ["term:a"])]
    ∧ get_neighbors (buildNetworkGraph exSnapChain) "b" "term" 1 "both"
        = [("depth_1", ["term:c", "term:a"])] :=
  ⟨(get_neighbors_bfs_levels (buildNetworkGraph exSnapChain) "b" "term" 1 "out"
      (Or.inr (Or.inl rfl)) (by decide)).1,
   by decide, by decide, by decide⟩

/-! ## Distance and path lemmas -/

theorem distDAux_succ (g : NetGraph) (dir start target : String) (fuel n : Nat) :
    distDAux g dir start target (fuel + 1) n =
      if target ∈ ballD g dir start n then some n
      else distDAux g dir start target fuel (n + 1) :=
  rfl

theorem distDAux_some {g : NetGraph} {dir s t : String} :
    ∀ {fuel n m : Nat}, distDAux g dir s t fuel n = some m →
      n ≤ m ∧ t ∈ ballD g dir s m ∧ ∀ j, n ≤ j → j < m → t ∉ ballD g dir s j := by
  intro fuel
  induction fuel with
  | zero => intro n m h; simp [distDAux] at h
  | succ fuel ih =>
    intro n m h
    rw [distDAux_succ] at h
    by_cases hball : t ∈ ballD g dir s n
    · rw [if_pos hball] at h
      obtain rfl : n = m := by simpa using h
      exact ⟨Nat.le_refl n, hball, fun j h1 h2 => absurd (Nat.lt_of_le_of_lt h1 h2) (Nat.lt_irrefl n)⟩
    · rw [if_neg hball] at h
      obtain ⟨h1, h2, h3⟩ := ih h
      refine ⟨Nat.le_of_succ_le h1, h2, ?_⟩
      intro j hj1 hj2
      rcases Nat.eq_or_lt_of_le hj1 with rfl | hj1'
      · exact hball
      · exact h3 j hj1' hj2

theorem distDAux_unreachable {g : NetGraph} {dir s t : String}
    (h : ∀ m, t ∉ ballD g dir s m) : ∀ fuel n, distDAux g dir s t fuel n = none := by
  intro fuel
  induction fuel with
  | zero => intro n; rfl
  | succ fuel ih =>
    intro n
    rw [distDAux_succ, if_neg (h n)]
    exact ih (n + 1)

/-- When `distD` answers, the answer is the least radius reaching the target. -/
theorem distD_some {g : NetGraph} {dir s t : String} {n : Nat}
    (h : distD g dir s t = some n) :
    t ∈ ballD g dir s n ∧ ∀ m < n, t ∉ ballD g dir s m := by
  obtain ⟨_, h2, h3⟩ := distDAux_some h
  exact ⟨h2, fun m hm => h3 m (Nat.zero_le m) hm⟩

theorem distD_unreachable {g : NetGraph} {dir s t : String}
    (h : ∀ m, t ∉ ballD g dir s m) : distD g dir s t = none :=
  distDAux_unreachable h (distBound g) 0

theorem mem_dirNeighbors_out {g : NetGraph} {u x : String} :
    x ∈ dirNeighbors g "out" u ↔ x ∈ successors g u := by
  simp [dirNeighbors]

/-- Soundness of the path reconstruction: a returned list really is a
directed path of length `n` from `s` to `t`. -/
theorem pathTo_sound {g : NetGraph} {s : String} :
    ∀ {n : Nat} {t : String} {p : List String}, pathTo g s n t = some p →
      p.head? = some s ∧ p.getLast? = some t ∧ p.length = n + 1
        ∧ List.Chain' (fun u v => v ∈ successors g u) p := by
  intro n
  induction n with
  | zero =>
    intro t p h
    simp only [pathTo] at h
    by_cases ht : t == s
    · rw [if_pos ht] at h
      obtain rfl : [s] = p := by simpa using h
      obtain rfl : t = s := by simpa using ht
      simp
    · rw [if_neg ht] at h; exact absurd h (by simp)
  | succ n ih =>
    intro t p h
    simp only [pathTo] at h
    cases hfind : (ballD g "out" s n).find? (fun u => decide (t ∈ successors g u)) with
    | none => rw [hfind] at h; exact absurd h (by simp)
    | some u =>
      rw [hfind] at h
      cases hrec : pathTo g s n u with
      | none => simp [hrec] at h
      | some q =>
        simp only [hrec] at h
        obtain rfl : q ++ [t] = p := by simpa using h
        obtain ⟨hh, hl, hlen, hchain⟩ := ih hrec
        have hq : q ≠ [] := by
          intro hq; rw [hq] at hlen; simp at hlen
        have hedge : t ∈ successors g u := by
          have := List.find?_some hfind
          simpa using this
        refine ⟨?_, ?_, ?_, ?_⟩
        · cases q with
          | nil => exact absurd rfl hq
          | cons a q' => simpa using hh
        · simp
        · simp [hlen]
        · rw [List.chain'_append]
          refine ⟨hchain, List.chain'_singleton t, ?_⟩
          intro x hx y hy
          obtain rfl : t = y := by simpa using hy
          rw [hl] at hx
          obtain rfl : u = x := by simpa using hx
          exact hedge

/-- Completeness of the path reconstruction: at the exact (least) distance it
always finds a path. -/
theorem pathTo_complete {g : NetGraph} {s : String} :
    ∀ {n : Nat} {t : String}, t ∈ ballD g "out" s n → (∀ m < n, t ∉ ballD g "out" s m) →
      (pathTo g s n t).isSome := by
  intro n
  induction n with
  | zero =>
    intro t hball _
    obtain rfl : t = s := by simpa [ballD] using hball
    simp [pathTo]
  | succ n ih =>
    intro t hball hleast
    have hnt : t ∉ ballD g "out" s n := hleast n (Nat.lt_succ_self n)
    rcases mem_ballD_succ.mp hball with hk | ⟨u, hu, hxu⟩
    · exact absurd hk hnt
    · have hfind : ((ballD g "out" s n).find? (fun u => decide (t ∈ successors g u))).isSome := by
        rw [List.find?_isSome]
        exact ⟨u, hu, by simpa using mem_dirNeighbors_out.mp hxu⟩
      obtain ⟨u₀, hu₀⟩ := Option.isSome_iff_exists.mp hfind
      have hu₀mem : u₀ ∈ ballD g "out" s n := List.mem_of_find?_eq_some hu₀
      have hu₀edge : t ∈ successors g u₀ := by
        have := List.find?_some hu₀
        simpa using this
      have hu₀least : ∀ m < n, u₀ ∉ ballD g "out" s m := by
        intro m hm hmem
        exact hleast (m + 1) (Nat.succ_lt_succ hm)
          (mem_ballD_succ.mpr (Or.inr ⟨u₀, hmem, mem_dirNeighbors_out.mpr hu₀edge⟩))
      have hrec := ih hu₀mem hu₀least
      obtain ⟨q, hq⟩ := Option.isSome_iff_exists.mp hrec
      simp [pathTo, hu₀, hq]

/-- Any directed path from `s` to `t` keeps `t` inside the ball whose radius
is the path's edge count: the ingredient for minimality of the BFS result. -/
theorem chain_mem_ballD (g : NetGraph) :
    ∀ (q : List String) (s t : String), q.head? = some s → q.getLast? = some t →
      List.Chain' (fun u v => v ∈ successors g u) q → t ∈ ballD g "out" s (q.length - 1) := by
  intro q
  induction q using List.reverseRecOn with
  | nil => intro s t h _ _; simp at h
  | append_singleton q' a ih =>
    intro s t hh hl hchain
    have hta : a = t := by simpa using hl
    subst hta
    cases hq' : q' with
    | nil =>
      subst hq'
      obtain rfl : a = s := by simpa using hh
      simp [ballD]
    | cons b q'' =>
      have hq'ne : q' ≠ [] := by rw [hq']; exact List.cons_ne_nil b q''
      have hh' : q'.head? = some s := by
        cases q' with
        | nil => exact absurd rfl hq'ne
        | cons c q₃ => simpa [List.head?_append] using hh
      obtain ⟨u, hu⟩ : ∃ u, q'.getLast? = some u := by
        cases q' with
        | nil => exact absurd rfl hq'ne
        | cons c q₃ => exact ⟨(c :: q₃).getLast (by simp), List.getLast?_eq_getLast _ _⟩
      rw [List.chain'_append] at hchain
      obtain ⟨hchain', _, hlink⟩ := hchain
      have hedge : a ∈ successors g u := hlink u hu a (by simp)
      have hmem := ih s u hh' hu hchain'
      have hball : a ∈ ballD g "out" s (q'.length - 1 + 1) :=
        mem_ballD_succ.mpr (Or.inr ⟨u, hmem, mem_dirNeighbors_out.mpr hedge⟩)
      have hlen : q'.length - 1 + 1 = (q' ++ [a]).length - 1 := by
        rw [hq']; simp
      rw [hlen, hq'] at hball
      simpa using hball

/-! ## C2 — `find_shortest_path` and absent keys

The code catches only `nx.NetworkXNoPath`.  `nx.shortest_path` raises
`NodeNotFound` — which is *not* a `NetworkXNoPath` — when either endpoint is
missing, so an absent key propagates an exception instead of returning
`None`. -/

/-- C2 (claim as stated, refuted): with target key `term:zz` absent,
`find_shortest_path` propagates `NodeNotFound` and does not return `None`. -/
theorem shortest_path_absent_key_raises :
    find_shortest_path (buildNetworkGraph exSnapChain) "a" "zz" "term" "term"
      = .error (.nodeNotFound "Either source term:a or target term:zz is not in G")
    ∧ find_shortest_path (buildNetworkGraph exSnapChain) "a" "zz" "term" "term" ≠ .ok none := by
  have h : find_shortest_path (buildNetworkGraph exSnapChain) "a" "zz" "term" "term"
      = .error (.nodeNotFound "Either source term:a or target term:zz is not in G") := by rfl
  refine ⟨h, ?_⟩
  rw [h]
  intro hc
  exact Except.noConfusion hc

/-- C2 (amended): when both keys are present and the target is reachable,
`find_shortest_path` returns a genuine directed path of minimum length from
source to target; when both keys are present and the target is unreachable it
returns `None`; when either key is absent it propagates networkx's
`NodeNotFound` exception instead of returning `None`. -/
theorem find_shortest_path_characterization (g : NetGraph)
    (source_id target_id source_type target_type : String) :
    (∀ n, hasNode g (source_type ++ ":" ++ source_id) = true →
       hasNode g (target_type ++ ":" ++ target_id) = true →
       distD g "out" (source_type ++ ":" ++ source_id) (target_type ++ ":" ++ target_id) = some n →
       ∃ p, find_shortest_path g source_id target_id source_type target_type = .ok (some p)
         ∧ p.head? = some (source_type ++ ":" ++ source_id)
         ∧ p.getLast? = some (target_type ++ ":" ++ target_id)
         ∧ List.Chain' (fun u v => v ∈ successors g u) p
         ∧ p.length = n + 1
         ∧ ∀ q, q.head? = some (source_type ++ ":" ++ source_id) →
             q.getLast? = some (target_type ++ ":" ++ target_id) →
             List.Chain' (fun u v => v ∈ successors g u) q → p.length ≤ q.length)
    ∧ (hasNode g (source_type ++ ":" ++ source_id) = true →
       hasNode g (target_type ++ ":" ++ target_id) = true →
       (∀ m, (target_type ++ ":" ++ target_id)
          ∉ ballD g "out" (source_type ++ ":" ++ source_id) m) →
       find_shortest_path g source_id target_id source_type target_type = .ok none)
    ∧ (¬ (hasNode g (source_type ++ ":" ++ source_id) = true
          ∧ hasNode g (target_type ++ ":" ++ target_id) = true) →
       find_shortest_path g source_id target_id source_type target_type
         = .error (.nodeNotFound ("Either source " ++ (source_type ++ ":" ++ source_id)
             ++ " or target " ++ (target_type ++ ":" ++ target_id) ++ " is not in G"))) := by
  refine ⟨?_, ?_, ?_⟩
  · intro n hs ht hd
    obtain ⟨hball, hleast⟩ := distD_some hd
    obtain ⟨p, hp⟩ := Option.isSome_iff_exists.mp (pathTo_complete hball hleast)
    obtain ⟨hph, hpl, hplen, hpchain⟩ := pathTo_sound hp
    refine ⟨p, ?_, hph, hpl, hpchain, hplen, ?_⟩
    · simp [find_shortest_path, nxShortestPath, hs, ht, hd, hp]
    · intro q hqh hql hqchain
      have hqball := chain_mem_ballD g q _ _ hqh hql hqchain
      have hqne : q ≠ [] := by intro hq; rw [hq] at hqh; simp at hqh
      have hqlen : 1 ≤ q.length := by
        cases q with
        | nil => exact absurd rfl hqne
        | cons a q' => simp
      by_cases hcmp : q.length - 1 < n
      · exact absurd hqball (hleast _ hcmp)
      · omega
  · intro hs ht hunreach
    have hd := distD_unreachable hunreach
    simp [find_shortest_path, nxShortestPath, hs, ht, hd]
  · intro hnot
    have hfalse : (hasNode g (source_type ++ ":" ++ source_id)
        && hasNode g (target_type ++ ":" ++ target_id)) = false := by
      cases h1 : hasNode g (source_type ++ ":" ++ source_id) with
      | false => simp [h1]
      | true =>
        cases h2 : hasNode g (target_type ++ ":" ++ target_id) with
        | false => simp [h2]
        | true => exact absurd ⟨h1, h2⟩ hnot
    simp [find_shortest_path, nxShortestPath, hfalse]

/-- Witness for `find_shortest_path_characterization`: the reachable case on
the chain `a → b → c` at distance 2. -/
theorem find_shortest_path_characterization_witness :
    ∃ p, find_shortest_path (buildNetworkGraph exSnapChain) "a" "c" "term" "term" = .ok (some p)
      ∧ p.head? = some ("term" ++ ":" ++ "a")
      ∧ p.getLast? = some ("term" ++ ":" ++ "c")
      ∧ List.Chain' (fun u v => v ∈ successors (buildNetworkGraph exSnapChain) u) p
      ∧ p.length = 2 + 1
      ∧ ∀ q, q.head? = some ("term" ++ ":" ++ "a") →
          q.getLast? = some ("term" ++ ":" ++ "c") →
          List.Chain' (fun u v => v ∈ successors (buildNetworkGraph exSnapChain) u) q →
          p.length ≤ q.length :=
  (find_shortest_path_characterization (buildNetworkGraph exSnapChain) "a" "c" "term" "term").1
    2 (by decide) (by decide) (by decide)

/-! ## C9 — shortest path from a node to itself -/

/-- C9: for a node key present in the graph, `find_shortest_path` with the
same entity as source and target returns the one-element path (networkx's
`bidirectional_shortest_path` yields `[source]` when source equals target),
not `None` and not an empty sequence. -/
theorem find_shortest_path_self_singleton (g : NetGraph) (entity_id entity_type : String)
    (h : hasNode g (entity_type ++ ":" ++ entity_id) = true) :
    find_shortest_path g entity_id entity_id entity_type entity_type
      = .ok (some [entity_type ++ ":" ++ entity_id]) := by
  have hd : distD g "out" (entity_type ++ ":" ++ entity_id) (entity_type ++ ":" ++ entity_id)
      = some 0 := by
    rw [distD, show distBound g = g.nodes.length + g.edges.length + 1 from rfl, distDAux_succ]
    rw [if_pos (by simp [ballD])]
  have hp : pathTo g (entity_type ++ ":" ++ entity_id) 0 (entity_type ++ ":" ++ entity_id)
      = some [entity_type ++ ":" ++ entity_id] := by
    simp [pathTo]
  simp [find_shortest_path, nxShortestPath, h, hd, hp]

/-- Witness for `find_shortest_path_self_singleton` on the chain graph. -/
theorem find_shortest_path_self_singleton_witness :
    find_shortest_path (buildNetworkGraph exSnapChain) "a" "a" "term" "term"
      = .ok (some ["term" ++ ":" ++ "a"]) :=
  find_shortest_path_self_singleton (buildNetworkGraph exSnapChain) "a" "term" (by decide)

/-! ## C10 — centrality score maps cover exactly the node set -/

theorem map_fst_map_pair (l : List String) (f : String → ℚ) :
    (l.map (fun u => (u, f u))).map Prod.fst = l := by
  induction l with
  | nil => rfl
  | cons a l ih => simp [ih]

theorem prIterate_keys (g : NetGraph) (nodesL : List String) (alpha : ℚ)
    (x : List (String × ℚ)) : (prIterate g nodesL alpha x).map Prod.fst = nodesL :=
  map_fst_map_pair nodesL _

theorem pagerankLoop_keys (g : NetGraph) (nodesL : List String) (alpha tol : ℚ) :
    ∀ (fuel : Nat) (x m : List (String × ℚ)),
      pagerankLoop g nodesL alpha tol fuel x = .ok m → m.map Prod.fst = nodesL := by
  intro fuel
  induction fuel with
  | zero => intro x m h; exact absurd h (by simp [pagerankLoop])
  | succ fuel ih =>
    intro x m h
    rw [pagerankLoop] at h
    by_cases hc : ((nodesL.map (fun v => |lookupQ (prIterate g nodesL alpha x) v - lookupQ x v|)).sum
        < (nodesL.length : ℚ) * tol)
    · rw [if_pos hc] at h
      obtain rfl : prIterate g nodesL alpha x = m := by simpa using h
      exact prIterate_keys g nodesL alpha x
    · rw [if_neg hc] at h
      exact ih _ m h

/-- C10: for every supported centrality method, a returned score mapping
assigns a score to every node of the property graph and to nothing else —
its key list is exactly the graph's node-key list. -/
theorem calculate_centrality_keys (g : NetGraph) (method : String)
    (hm : method ∈ supportedCentralityMethods) (m : List (String × ℚ))
    (h : calculate_centrality g method = .ok m) : m.map Prod.fst = nodeKeys g := by
  have hcases : method = "pagerank" ∨ method = "betweenness" ∨ method = "closeness"
      ∨ method = "degree" := by simpa [supportedCentralityMethods] using hm
  rcases hcases with rfl | rfl | rfl | rfl
  · have h' : nxPagerank g = .ok m := by simpa [calculate_centrality] using h
    rw [nxPagerank] at h'
    by_cases he : (nodeKeys g).isEmpty
    · rw [if_pos he] at h'
      obtain rfl : ([] : List (String × ℚ)) = m := by simpa using h'
      simp [List.isEmpty_iff.mp he]
    · rw [if_neg he] at h'
      exact pagerankLoop_keys g (nodeKeys g) _ _ _ _ m h'
  · have h' : betweennessCentrality g = m := by simpa [calculate_centrality] using h
    rw [← h']
    exact map_fst_map_pair _ _
  · have h' : closenessCentrality g = m := by simpa [calculate_centrality] using h
    rw [← h']
    exact map_fst_map_pair _ _
  · have h' : degreeCentrality g = m := by simpa [calculate_centrality] using h
    rw [← h', degreeCentrality]
    by_cases hn : g.nodes.length ≤ 1
    · rw [if_pos hn]; exact map_fst_map_pair _ _
    · rw [if_neg hn]; exact map_fst_map_pair _ _

/-- Witness for `calculate_centrality_keys`: the degree method on the chain
graph. -/
theorem calculate_centrality_keys_witness :
    (degreeCentrality (buildNetworkGraph exSnapChain)).map Prod.fst
      = nodeKeys (buildNetworkGraph exSnapChain) :=
  calculate_centrality_keys (buildNetworkGraph exSnapChain) "degree" (by decide)
    (degreeCentrality (buildNetworkGraph exSnapChain)) rfl

/-! ## Structural facts about built property graphs -/

theorem hasNode_iff_mem {g : NetGraph} {n : String} :
    hasNode g n = true ↔ n ∈ nodeKeys g := by
  simp only [hasNode, nodeKeys, List.any_eq_true, List.mem_map, beq_iff_eq]

theorem nodeKeys_addNode (g : NetGraph) (n : String) (attrs : Attrs) :
    nodeKeys (addNode g n attrs) =
      if hasNode g n then nodeKeys g else nodeKeys g ++ [n] := by
  by_cases h : hasNode g n
  · rw [if_pos h]
    simp only [addNode, if_pos h, nodeKeys, List.map_map]
    apply List.map_congr_left
    intro p _
    by_cases hp : p.1 = n <;> simp [hp]
  · rw [if_neg h]
    simp [addNode, h, nodeKeys]

theorem nodeKeys_ensureNode (g : NetGraph) (n : String) :
    nodeKeys (ensureNode g n) =
      if hasNode g n then nodeKeys g else nodeKeys g ++ [n] := by
  by_cases h : hasNode g n <;> simp [ensureNode, h, nodeKeys]

theorem edges_ensureNode (g : NetGraph) (n : String) :
    (ensureNode g n).edges = g.edges := by
  by_cases h : hasNode g n <;> simp [ensureNode, h]

theorem nodeKeys_addEdge (g : NetGraph) (u v : String) (attrs : Attrs) :
    nodeKeys (addEdge g u v attrs) = nodeKeys (ensureNode (ensureNode g u) v) := by
  rw [addEdge]
  by_cases h : hasEdge (ensureNode (ensureNode g u) v) u v <;> simp [h, nodeKeys]

theorem mem_nodeKeys_ensureNode_self (g : NetGraph) (n : String) :
    n ∈ nodeKeys (ensureNode g n) := by
  rw [nodeKeys_ensureNode]
  by_cases h : hasNode g n
  · simpa [h] using hasNode_iff_mem.mp h
  · simp [h]

theorem mem_nodeKeys_ensureNode_of_mem {g : NetGraph} {x : String} (n : String)
    (h : x ∈ nodeKeys g) : x ∈ nodeKeys (ensureNode g n) := by
  rw [nodeKeys_ensureNode]
  by_cases hn : hasNode g n <;> simp [hn, h]

theorem mem_nodeKeys_applyBuildOp {g : NetGraph} {x : String} (op : BuildOp)
    (h : x ∈ nodeKeys g) : x ∈ nodeKeys (applyBuildOp g op) := by
  cases op with
  | node n a =>
    rw [applyBuildOp, nodeKeys_addNode]
    by_cases hn : hasNode g n <;> simp [hn, h]
  | edge u v a =>
    rw [applyBuildOp, nodeKeys_addEdge]
    exact mem_nodeKeys_ensureNode_of_mem v (mem_nodeKeys_ensureNode_of_mem u h)

theorem nodup_applyBuildOp {g : NetGraph} (op : BuildOp)
    (h : (nodeKeys g).Nodup) : (nodeKeys (applyBuildOp g op)).Nodup := by
  have hnodup_ensure : ∀ (g' : NetGraph) (n : String),
      (nodeKeys g').Nodup → (nodeKeys (ensureNode g' n)).Nodup := by
    intro g' n hg
    rw [nodeKeys_ensureNode]
    by_cases hn : hasNode g' n
    · simpa [hn] using hg
    · have hne : n ∉ nodeKeys g' := fun hmem => hn (hasNode_iff_mem.mpr hmem)
      simp [hn, List.nodup_append, hg, hne]
  cases op with
  | node n a =>
    rw [applyBuildOp, nodeKeys_addNode]
    by_cases hn : hasNode g n
    · simpa [hn] using h
    · have hne : n ∉ nodeKeys g := fun hmem => hn (hasNode_iff_mem.mpr hmem)
      simp [hn, List.nodup_append, h, hne]
  | edge u v a =>
    rw [applyBuildOp, nodeKeys_addEdge]
    exact hnodup_ensure _ v (hnodup_ensure g u h)

/-- `add_edge` only appends the new edge or rewrites edge attributes: every
edge of the result keeps the endpoints of an old edge, or is the new pair. -/
theorem edge_endpoints_addEdge {g : NetGraph} {u v : String} {a : Attrs}
    {e : String × String × Attrs} (he : e ∈ (addEdge g u v a).edges) :
    (∃ e₀ ∈ g.edges, e.1 = e₀.1 ∧ e.2.1 = e₀.2.1) ∨ (e.1 = u ∧ e.2.1 = v) := by
  rw [addEdge] at he
  by_cases hE : hasEdge (ensureNode (ensureNode g u) v) u v
  · rw [if_pos hE] at he
    simp only [List.mem_map, edges_ensureNode] at he
    obtain ⟨e₀, he₀, rfl⟩ := he
    by_cases hmatch : (e₀.1 == u && e₀.2.1 == v) = true <;>
      exact Or.inl ⟨e₀, he₀, by simp [hmatch], by simp [hmatch]⟩
  · rw [if_neg hE] at he
    simp only [edges_ensureNode] at he
    rcases List.mem_append.mp he with he' | he'
    · exact Or.inl ⟨e, he', rfl, rfl⟩
    · obtain rfl : e = (u, v, a) := by simpa using he'
      exact Or.inr ⟨rfl, rfl⟩

/-- Every edge endpoint of a graph built by the service is a node of the
graph (`add_edge` creates missing endpoints). -/
def EdgesClosed (g : NetGraph) : Prop :=
  ∀ e ∈ g.edges, e.1 ∈ nodeKeys g ∧ e.2.1 ∈ nodeKeys g

theorem edges_addNode (g : NetGraph) (n : String) (attrs : Attrs) :
    (addNode g n attrs).edges = g.edges := by
  by_cases h : hasNode g n <;> simp [addNode, h]

theorem edgesClosed_applyBuildOp {g : NetGraph} (op : BuildOp)
    (h : EdgesClosed g) : EdgesClosed (applyBuildOp g op) := by
  cases op with
  | node n a =>
    intro e he
    rw [applyBuildOp, edges_addNode] at he
    obtain ⟨h1, h2⟩ := h e he
    exact ⟨mem_nodeKeys_applyBuildOp (.node n a) h1, mem_nodeKeys_applyBuildOp (.node n a) h2⟩
  | edge u v a =>
    intro e he
    have hkeys : nodeKeys (applyBuildOp g (.edge u v a))
        = nodeKeys (ensureNode (ensureNode g u) v) := nodeKeys_addEdge g u v a
    rcases edge_endpoints_addEdge he with ⟨e₀, he₀, h1, h2⟩ | ⟨h1, h2⟩
    · obtain ⟨hm1, hm2⟩ := h e₀ he₀
      rw [h1, h2, applyBuildOp, nodeKeys_addEdge]
      exact ⟨mem_nodeKeys_ensureNode_of_mem v (mem_nodeKeys_ensureNode_of_mem u hm1),
             mem_nodeKeys_ensureNode_of_mem v (mem_nodeKeys_ensureNode_of_mem u hm2)⟩
    · rw [h1, h2, applyBuildOp, nodeKeys_addEdge]
      exact ⟨mem_nodeKeys_ensureNode_of_mem v (mem_nodeKeys_ensureNode_self g u),
             mem_nodeKeys_ensureNode_self (ensureNode g u) v⟩

theorem foldl_buildOp_invariant {I : NetGraph → Prop}
    (hstep : ∀ g op, I g → I (applyBuildOp g op)) :
    ∀ (ops : List BuildOp) (g : NetGraph), I g → I (ops.foldl applyBuildOp g) := by
  intro ops
  induction ops with
  | nil => intro g hg; exact hg
  | cons op ops ih => intro g hg; exact ih _ (hstep g op hg)

theorem buildNetworkGraph_nodup (snap : Snapshot) :
    (nodeKeys (buildNetworkGraph snap)).Nodup :=
  @foldl_buildOp_invariant (fun g => (nodeKeys g).Nodup)
    (fun _ op h => nodup_applyBuildOp op h) (buildOpsCore snap)
    emptyNetGraph (by simp [emptyNetGraph, nodeKeys])

theorem buildNetworkGraph_edgesClosed (snap : Snapshot) :
    EdgesClosed (buildNetworkGraph snap) :=
  @foldl_buildOp_invariant EdgesClosed
    (fun _ op h => edgesClosed_applyBuildOp op h) (buildOpsCore snap)
    emptyNetGraph (by intro e he; simp [emptyNetGraph] at he)

/-! ## Summation lemmas for the centrality bounds -/

theorem list_sum_map_add {α : Type} {M : Type} [AddCommMonoid M] (l : List α) (f h : α → M) :
    (l.map (fun a => f a + h a)).sum = (l.map f).sum + (l.map h).sum := by
  induction l with
  | nil => simp
  | cons a t ih =>
    simp only [List.map_cons, List.sum_cons, ih]
    rw [add_assoc, add_assoc]
    congr 1
    rw [← add_assoc, add_comm (h a), add_assoc]

theorem list_sum_map_mul_left {α : Type} (l : List α) (c : ℚ) (f : α → ℚ) :
    (l.map (fun a => c * f a)).sum = c * (l.map f).sum := by
  induction l with
  | nil => simp
  | cons a t ih => simp [ih]; ring

theorem list_sum_map_const {α : Type} (l : List α) (c : ℚ) :
    (l.map (fun _ => c)).sum = (l.length : ℚ) * c := by
  induction l with
  | nil => simp
  | cons a t ih => simp [ih]; ring

theorem list_sum_swap {α β : Type} (L : List α) (M : List β) (f : α → β → ℚ) :
    (L.map (fun a => (M.map (fun b => f a b)).sum)).sum
      = (M.map (fun b => (L.map (fun a => f a b)).sum)).sum := by
  induction L with
  | nil =>
    simp only [List.map_nil, List.sum_nil]
    symm
    simpa using list_sum_map_const M (0 : ℚ)
  | cons a t ih =>
    simp only [List.map_cons, List.sum_cons, ih]
    rw [← list_sum_map_add]

theorem list_sum_filter_split {α : Type} (l : List α) (p : α → Bool) (f : α → ℚ) :
    ((l.filter p).map f).sum + ((l.filter (fun a => !(p a))).map f).sum = (l.map f).sum := by
  induction l with
  | nil => simp
  | cons a t ih =>
    by_cases hp : p a <;> simp only [List.filter_cons, hp] <;> simp <;> linarith [ih]

theorem sum_indicator_zero {l : List String} {a : String} (h : a ∉ l) :
    (l.map (fun v => if a = v then (1 : ℕ) else 0)).sum = 0 := by
  induction l with
  | nil => rfl
  | cons b t ih =>
    have hab : a ≠ b := fun hab => h (hab ▸ List.mem_cons_self b t)
    have hat : a ∉ t := fun hat => h (List.mem_cons_of_mem b hat)
    simp [hab, ih hat]

theorem sum_indicator_one {l : List String} {a : String} (hnodup : l.Nodup) (ha : a ∈ l) :
    (l.map (fun v => if a = v then (1 : ℕ) else 0)).sum = 1 := by
  induction l with
  | nil => simp at ha
  | cons b t ih =>
    rcases List.mem_cons.mp ha with rfl | hat
    · have hbt : a ∉ t := (List.nodup_cons.mp hnodup).1
      simp [sum_indicator_zero hbt]
    · have hab : a ≠ b := by
        rintro rfl
        exact (List.nodup_cons.mp hnodup).1 hat
      simp only [List.map_cons, List.sum_cons, if_neg hab]
      simpa using ih (List.nodup_cons.mp hnodup).2 hat

theorem sum_ge_length {l : List String} {f : String → ℕ} (h : ∀ v ∈ l, 1 ≤ f v) :
    l.length ≤ (l.map f).sum := by
  induction l with
  | nil => simp
  | cons a t ih =>
    have h1 := h a (List.mem_cons_self a t)
    have h2 := ih (fun v hv => h v (List.mem_cons_of_mem a hv))
    simp only [List.map_cons, List.sum_cons, List.length_cons]
    omega

theorem sum_ge_length_sub_one {l : List String} {f : String → ℕ} {u : String}
    (hnodup : l.Nodup) (hz : ∀ v ∈ l, f v = 0 → v = u) :
    l.length - 1 ≤ (l.map f).sum := by
  induction l with
  | nil => simp
  | cons a t ih =>
    by_cases hfa : f a = 0
    · obtain rfl : a = u := hz a (List.mem_cons_self a t) hfa
      have hat : a ∉ t := (List.nodup_cons.mp hnodup).1
      have ht : ∀ v ∈ t, 1 ≤ f v := by
        intro v hv
        rcases Nat.eq_zero_or_pos (f v) with h0 | h1
        · obtain rfl : v = a := hz v (List.mem_cons_of_mem a hv) h0
          exact absurd hv hat
        · exact h1
      have := sum_ge_length ht
      simp only [List.map_cons, List.sum_cons, List.length_cons, hfa]
      omega
    · have := ih (List.nodup_cons.mp hnodup).2
        (fun v hv h0 => hz v (List.mem_cons_of_mem a hv) h0)
      simp only [List.map_cons, List.sum_cons, List.length_cons]
      omega

theorem cast_sum_map (l : List String) (f : String → ℕ) :
    (l.map (fun v => ((f v : ℕ) : ℚ))).sum = (((l.map f).sum : ℕ) : ℚ) := by
  induction l with
  | nil => simp
  | cons a t ih => simp [ih]

/-- Summing the per-target parallel-edge counts over a duplicate-free node
list containing every edge target yields the out-degree. -/
theorem sum_countEdges_nat (nodesL : List String) (hnodup : nodesL.Nodup) (u : String) :
    ∀ (E : List (String × String × Attrs)), (∀ e ∈ E, e.2.1 ∈ nodesL) →
      (nodesL.map (fun v => (E.filter (fun e => e.1 == u && e.2.1 == v)).length)).sum
        = (E.filter (fun e => e.1 == u)).length := by
  intro E
  induction E with
  | nil => simp
  | cons e E' ih =>
    intro hwf
    have hwf' : ∀ x ∈ E', x.2.1 ∈ nodesL := fun x hx => hwf x (List.mem_cons_of_mem e hx)
    have hsplit : ∀ v, ((e :: E').filter (fun x => x.1 == u && x.2.1 == v)).length
        = (if (e.1 == u && e.2.1 == v) = true then 1 else 0)
          + (E'.filter (fun x => x.1 == u && x.2.1 == v)).length := by
      intro v
      by_cases hc : (e.1 == u && e.2.1 == v) = true
      · simp [List.filter_cons, hc]
        omega
      · simp [List.filter_cons, hc]
    rw [show (fun v => ((e :: E').filter (fun x => x.1 == u && x.2.1 == v)).length)
        = fun v => (if (e.1 == u && e.2.1 == v) = true then 1 else 0)
            + (E'.filter (fun x => x.1 == u && x.2.1 == v)).length from funext hsplit]
    rw [list_sum_map_add, ih hwf']
    by_cases he : e.1 = u
    · have hind : (fun v => if (e.1 == u && e.2.1 == v) = true then (1 : ℕ) else 0)
          = fun v => if e.2.1 = v then 1 else 0 := by
        funext v
        simp [he]
      rw [hind]
      have hmem : e.2.1 ∈ nodesL := hwf e (List.mem_cons_self e E')
      rw [sum_indicator_one hnodup hmem]
      simp [List.filter_cons, he]
      omega
    · have hind : (fun v => if (e.1 == u && e.2.1 == v) = true then (1 : ℕ) else 0)
          = fun _ => 0 := by
        funext v
        simp [he]
      rw [hind]
      simp [List.filter_cons, he]

theorem sum_countEdges (g : NetGraph) (nodesL : List String) (hnodup : nodesL.Nodup)
    (hwf : ∀ e ∈ g.edges, e.2.1 ∈ nodesL) (u : String) :
    (nodesL.map (fun v => (countEdges g u v : ℚ))).sum = ((outDegree g u : ℕ) : ℚ) := by
  have h := sum_countEdges_nat nodesL hnodup u g.edges hwf
  calc (nodesL.map (fun v => ((countEdges g u v : ℕ) : ℚ))).sum
      = (((nodesL.map (fun v => countEdges g u v)).sum : ℕ) : ℚ) := cast_sum_map _ _
    _ = ((outDegree g u : ℕ) : ℚ) := by rw [show (nodesL.map fun v => countEdges g u v).sum
          = outDegree g u from h]

/-- Looking the values of a score map up along its own (duplicate-free) key
list recovers exactly the stored values. -/
theorem lookup_along_keys :
    ∀ (x : List (String × ℚ)), (x.map Prod.fst).Nodup →
      (x.map Prod.fst).map (lookupQ x) = x.map Prod.snd := by
  intro x
  induction x with
  | nil => intro _; rfl
  | cons kv rest ih =>
    intro hnodup
    have hk : lookupQ (kv :: rest) kv.1 = kv.2 := by
      simp [lookupQ, List.find?]
    have hnotin : kv.1 ∉ rest.map Prod.fst := (List.nodup_cons.mp hnodup).1
    have htail : ∀ v ∈ rest.map Prod.fst, lookupQ (kv :: rest) v = lookupQ rest v := by
      intro v hv
      have hvk : ¬ (kv.1 == v) = true := by
        simp only [beq_iff_eq]
        rintro rfl
        exact hnotin hv
      simp [lookupQ, List.find?, hvk]
    simp only [List.map_cons, hk]
    rw [List.map_congr_left htail, ih (List.nodup_cons.mp hnodup).2]

/-- One pagerank power iteration conserves total mass exactly: if the
previous vector sums to 1 over the node list, so does the next. -/
theorem prIterate_sum (g : NetGraph) (nodesL : List String) (alpha : ℚ)
    (hne : nodesL ≠ []) (hnodup : nodesL.Nodup)
    (hwf : ∀ e ∈ g.edges, e.2.1 ∈ nodesL) (x : List (String × ℚ))
    (hsum : (nodesL.map (lookupQ x)).sum = 1) :
    ((prIterate g nodesL alpha x).map Prod.snd).sum = 1 := by
  have hN : ((nodesL.length : ℚ)) ≠ 0 := by
    have : nodesL.length ≠ 0 := fun h => hne (List.length_eq_zero.mp h)
    exact_mod_cast this
  rw [prIterate]
  simp only [List.map_map]
  rw [show ((fun (p : String × ℚ) => p.2) ∘ fun v =>
        (v, alpha * ((nodesL.filter (fun u => outDegree g u != 0)).map
            (fun u => lookupQ x u * (countEdges g u v : ℚ) / (outDegree g u : ℚ))).sum
          + (alpha * ((nodesL.filter (fun u => outDegree g u == 0)).map
              (fun u => lookupQ x u)).sum) * (1 / (nodesL.length : ℚ))
          + (1 - alpha) * (1 / (nodesL.length : ℚ))))
      = fun v => alpha * ((nodesL.filter (fun u => outDegree g u != 0)).map
            (fun u => lookupQ x u * (countEdges g u v : ℚ) / (outDegree g u : ℚ))).sum
          + ((alpha * ((nodesL.filter (fun u => outDegree g u == 0)).map
              (fun u => lookupQ x u)).sum) * (1 / (nodesL.length : ℚ))
            + (1 - alpha) * (1 / (nodesL.length : ℚ))) from funext fun v => by
        dsimp only [Function.comp]
        ring]
  rw [list_sum_map_add]
  rw [show (fun v => alpha * ((nodesL.filter (fun u => outDegree g u != 0)).map
        (fun u => lookupQ x u * (countEdges g u v : ℚ) / (outDegree g u : ℚ))).sum)
      = fun v => ((nodesL.filter (fun u => outDegree g u != 0)).map
        (fun u => alpha * (lookupQ x u * (countEdges g u v : ℚ) / (outDegree g u : ℚ)))).sum
      from funext fun v => (list_sum_map_mul_left _ alpha _).symm]
  rw [list_sum_swap, list_sum_map_const]
  have hinner : ∀ u ∈ nodesL.filter (fun u => outDegree g u != 0),
      (nodesL.map (fun v => alpha * (lookupQ x u * (countEdges g u v : ℚ)
          / (outDegree g u : ℚ)))).sum
        = alpha * lookupQ x u := by
    intro u hu
    have hdeg : (outDegree g u : ℚ) ≠ 0 := by
      have := (List.mem_filter.mp hu).2
      simp only [bne_iff_ne, ne_eq] at this
      exact_mod_cast this
    rw [show (fun v => alpha * (lookupQ x u * (countEdges g u v : ℚ) / (outDegree g u : ℚ)))
        = fun v => (alpha * lookupQ x u / (outDegree g u : ℚ)) * (countEdges g u v : ℚ)
        from funext fun v => by ring]
    rw [list_sum_map_mul_left, sum_countEdges g nodesL hnodup hwf u]
    field_simp
  rw [List.map_congr_left hinner]
  have hsplit := list_sum_filter_split nodesL (fun u => outDegree g u == 0) (lookupQ x)
  have hcompl : (nodesL.filter (fun u => !(outDegree g u == 0)))
      = nodesL.filter (fun u => outDegree g u != 0) := rfl
  rw [hcompl] at hsplit
  rw [show ((nodesL.filter (fun u => outDegree g u != 0)).map
      (fun u => alpha * lookupQ x u)).sum
    = alpha * ((nodesL.filter (fun u => outDegree g u != 0)).map (lookupQ x)).sum
    from list_sum_map_mul_left _ alpha _]
  have hdang : ((nodesL.filter (fun u => outDegree g u == 0)).map (lookupQ x)).sum
      + ((nodesL.filter (fun u => outDegree g u != 0)).map (lookupQ x)).sum = 1 := by
    rw [hsplit, hsum]
  have hdang' : ((nodesL.filter (fun u => outDegree g u == 0)).map
        (fun u => lookupQ x u)).sum
      + ((nodesL.filter (fun u => outDegree g u != 0)).map (lookupQ x)).sum = 1 := hdang
  have hmul : alpha * ((nodesL.filter (fun u => outDegree g u == 0)).map
        (fun u => lookupQ x u)).sum
      + alpha * ((nodesL.filter (fun u => outDegree g u != 0)).map (lookupQ x)).sum
      = alpha := by linear_combination alpha * hdang'
  field_simp
  linarith [hmul]

theorem pagerankLoop_sum (g : NetGraph) (nodesL : List String) (alpha tol : ℚ)
    (hne : nodesL ≠ []) (hnodup : nodesL.Nodup)
    (hwf : ∀ e ∈ g.edges, e.2.1 ∈ nodesL) :
    ∀ (fuel : Nat) (x m : List (String × ℚ)), x.map Prod.fst = nodesL →
      ((x.map Prod.snd).sum = 1) →
      pagerankLoop g nodesL alpha tol fuel x = .ok m → (m.map Prod.snd).sum = 1 := by
  intro fuel
  induction fuel with
  | zero => intro x m _ _ h; exact absurd h (by simp [pagerankLoop])
  | succ fuel ih =>
    intro x m hkeys hsum h
    have hlook : (nodesL.map (lookupQ x)).sum = 1 := by
      rw [← hkeys, lookup_along_keys x (by rw [hkeys]; exact hnodup), hsum]
    have hstep : ((prIterate g nodesL alpha x).map Prod.snd).sum = 1 :=
      prIterate_sum g nodesL alpha hne hnodup hwf x hlook
    rw [pagerankLoop] at h
    by_cases hc : ((nodesL.map (fun v => |lookupQ (prIterate g nodesL alpha x) v - lookupQ x v|)).sum
        < (nodesL.length : ℚ) * tol)
    · rw [if_pos hc] at h
      obtain rfl : prIterate g nodesL alpha x = m := by simpa using h
      exact hstep
    · rw [if_neg hc] at h
      exact ih _ m (prIterate_keys g nodesL alpha x) hstep h

theorem distD_self (g : NetGraph) (dir u : String) : distD g dir u u = some 0 := by
  rw [distD, show distBound g = g.nodes.length + g.edges.length + 1 from rfl, distDAux_succ]
  rw [if_pos (by simp [ballD])]

theorem eq_of_distD_eq_zero {g : NetGraph} {dir u v : String}
    (h : distD g dir u v = some 0) : v = u := by
  have := (distD_some h).1
  simpa [ballD] using this

/-! ## C5 — centrality value bounds

`nx.degree_centrality` on a digraph is `(in+out)/(n-1)`, which *exceeds* 1 as
soon as two nodes carry edges in both directions, so the claimed `[0,1]`
bound for `degree` is false; `closeness` does lie in `[0,1]`, and pagerank
mass is conserved exactly (so the returned scores sum to 1). -/

/-- C5 (claim as stated, refuted): on the property graph built from two
reciprocal relationships, `degree` centrality of `term:a` is `2`, outside
`[0,1]`. -/
theorem degree_centrality_exceeds_one :
    ("term:a", (2 : ℚ)) ∈ degreeCentrality (buildNetworkGraph exSnapCycle)
    ∧ ¬ ((2 : ℚ) ≤ 1) := by decide

/-- C5 (amended): on every non-empty built property graph, every `degree`
centrality score is non-negative (it can exceed 1), every `closeness` score
lies in `[0,1]`, and any score vector returned by `pagerank` sums to exactly
1 in exact arithmetic. -/
theorem centrality_bounds (snap : Snapshot)
    (hne : (buildNetworkGraph snap).nodes ≠ []) :
    (∀ p ∈ degreeCentrality (buildNetworkGraph snap), 0 ≤ p.2)
    ∧ (∀ p ∈ closenessCentrality (buildNetworkGraph snap), 0 ≤ p.2 ∧ p.2 ≤ 1)
    ∧ (∀ m, nxPagerank (buildNetworkGraph snap) = .ok m → (m.map Prod.snd).sum = 1) := by
  set g := buildNetworkGraph snap with hg
  have hnodup : (nodeKeys g).Nodup := buildNetworkGraph_nodup snap
  refine ⟨?_, ?_, ?_⟩
  · intro p hp
    rw [degreeCentrality] at hp
    by_cases hn : g.nodes.length ≤ 1
    · rw [if_pos hn] at hp
      obtain ⟨u, _, rfl⟩ := List.mem_map.mp hp
      norm_num
    · rw [if_neg hn] at hp
      obtain ⟨u, _, rfl⟩ := List.mem_map.mp hp
      have hden : (0 : ℚ) ≤ (g.nodes.length : ℚ) - 1 := by
        have : 2 ≤ g.nodes.length := by omega
        have h2 : (2 : ℚ) ≤ (g.nodes.length : ℚ) := by exact_mod_cast this
        linarith
      exact div_nonneg (by positivity) hden
  · intro p hp
    rw [closenessCentrality] at hp
    obtain ⟨u, hu, rfl⟩ := List.mem_map.mp hp
    dsimp only
    set reach := (nodeKeys g).filter (fun v => (distD g "in" u v).isSome) with hreach
    by_cases hcond : 0 < (reach.map (fun v => (distD g "in" u v).getD 0)).sum
        ∧ 1 < g.nodes.length
    · rw [if_pos hcond]
      obtain ⟨htot, hn1⟩ := hcond
      have hur : u ∈ reach := by
        rw [hreach]
        refine List.mem_filter.mpr ⟨hu, ?_⟩
        simp [distD_self]
      have hr1 : 1 ≤ reach.length := by
        have := List.length_pos.mpr (List.ne_nil_of_mem hur)
        omega
      have hrn : reach.length ≤ g.nodes.length := by
        calc reach.length ≤ (nodeKeys g).length := List.length_filter_le _ _
          _ = g.nodes.length := List.length_map _ _
      have hz : ∀ v ∈ reach, (distD g "in" u v).getD 0 = 0 → v = u := by
        intro v hv h0
        have hvsome : (distD g "in" u v).isSome := (List.mem_filter.mp hv).2
        obtain ⟨k, hk⟩ := Option.isSome_iff_exists.mp hvsome
        rw [hk] at h0
        simp at h0
        exact eq_of_distD_eq_zero (h0 ▸ hk)
      have hsum_ge : reach.length - 1 ≤ (reach.map (fun v => (distD g "in" u v).getD 0)).sum :=
        sum_ge_length_sub_one (List.Nodup.filter _ hnodup) hz
      set totsp := (reach.map (fun v => (distD g "in" u v).getD 0)).sum with htotsp
      have hc1 : ((reach.length : ℚ) - 1) ≤ (totsp : ℚ) := by
        have : ((reach.length - 1 : ℕ) : ℚ) ≤ (totsp : ℚ) := by exact_mod_cast hsum_ge
        rw [Nat.cast_sub hr1] at this
        simpa using this
      have hc2 : ((reach.length : ℚ) - 1) ≤ ((g.nodes.length : ℚ) - 1) := by
        have : (reach.length : ℚ) ≤ (g.nodes.length : ℚ) := by exact_mod_cast hrn
        linarith
      have hrq : (1 : ℚ) ≤ (reach.length : ℚ) := by exact_mod_cast hr1
      have htq : (0 : ℚ) < (totsp : ℚ) := by exact_mod_cast htot
      have hnq : (1 : ℚ) < (g.nodes.length : ℚ) := by exact_mod_cast hn1
      have hdenpos : (0 : ℚ) < (totsp : ℚ) * ((g.nodes.length : ℚ) - 1) := by
        apply mul_pos htq
        linarith
      constructor
      · positivity
      · rw [div_le_one hdenpos, sq]
        apply mul_le_mul hc1 hc2 (by linarith) (by linarith)
    · rw [if_neg hcond]
      norm_num
  · intro m hm
    rw [nxPagerank] at hm
    have hkeysne : ¬ (nodeKeys g).isEmpty := by
      simp only [List.isEmpty_iff]
      intro h
      exact hne (by simpa [nodeKeys] using congrArg List.length h)
    rw [if_neg hkeysne] at hm
    have hne' : nodeKeys g ≠ [] := fun h => hkeysne (List.isEmpty_iff.mpr h)
    have hwf : ∀ e ∈ g.edges, e.2.1 ∈ nodeKeys g :=
      fun e he => (buildNetworkGraph_edgesClosed snap e he).2
    refine pagerankLoop_sum g (nodeKeys g) _ _ hne' hnodup hwf 100 _ m
      (map_fst_map_pair _ _) ?_ hm
    rw [show ((nodeKeys g).map (fun v => (v, 1 / ((nodeKeys g).length : ℚ)))).map Prod.snd
        = (nodeKeys g).map (fun _ => 1 / ((nodeKeys g).length : ℚ)) by
      rw [List.map_map]; rfl]
    rw [list_sum_map_const]
    have hNq : ((nodeKeys g).length : ℚ) ≠ 0 := by
      have : (nodeKeys g).length ≠ 0 := fun h => hne' (List.length_eq_zero.mp h)
      exact_mod_cast this
    field_simp

/-- Witness for `centrality_bounds` on the single-layer snapshot: the
closeness score of the only node is inside `[0,1]`, and the returned pagerank
vector sums to 1. -/
theorem centrality_bounds_witness :
    ((0 : ℚ) ≤ (0 : ℚ) ∧ (0 : ℚ) ≤ 1)
    ∧ ([("layer:" ++ "L1", (1 : ℚ))].map Prod.snd).sum = 1 :=
  ⟨(centrality_bounds exSnapLayer (by decide)).2.1 ("layer:L1", 0) (by decide),
   (centrality_bounds exSnapLayer (by decide)).2.2 [("layer:" ++ "L1", 1)] (by decide)⟩

/-! ## String key disambiguation -/

theorem string_append_right_inj (s : String) {a b : String} (h : s ++ a = s ++ b) : a = b := by
  have hd := congrArg String.data h
  rw [String.data_append, String.data_append] at hd
  exact String.ext (List.append_cancel_left hd)

theorem string_append_ne_of_incomparable {p q : String}
    (hp : ¬ (p.data <+: q.data)) (hq : ¬ (q.data <+: p.data)) (a b : String) :
    p ++ a ≠ q ++ b := by
  intro h
  have hd := congrArg String.data h
  rw [String.data_append, String.data_append] at hd
  have h1 : p.data <+: q.data ++ b.data := ⟨a.data, hd⟩
  have h2 : q.data <+: q.data ++ b.data := ⟨b.data, rfl⟩
  rcases List.prefix_or_prefix_of_prefix h1 h2 with h' | h'
  · exact hp h'
  · exact hq h'

theorem layer_key_ne_domain_key (a b : String) : "layer:" ++ a ≠ "domain:" ++ b :=
  string_append_ne_of_incomparable (by decide) (by decide) a b

theorem term_key_ne_domain_key (a b : String) : "term:" ++ a ≠ "domain:" ++ b :=
  string_append_ne_of_incomparable (by decide) (by decide) a b

theorem term_key_ne_layer_key (a b : String) : "term:" ++ a ≠ "layer:" ++ b :=
  string_append_ne_of_incomparable (by decide) (by decide) a b

/-! ## Node-attribute tracking for placeholder nodes (C8) -/

/-- The attribute dict stored at node `n`, when the node exists. -/
def nodeAttr (g : NetGraph) (n : String) : Option Attrs :=
  (g.nodes.find? (fun p => p.1 == n)).map Prod.snd

theorem find?_append_eq {α : Type} (p : α → Bool) (l1 l2 : List α) :
    (l1 ++ l2).find? p = match l1.find? p with
      | some x => some x
      | none => l2.find? p := by
  induction l1 with
  | nil => simp
  | cons a t ih =>
    by_cases hp : p a
    · simp [List.find?, hp]
    · simp only [List.cons_append, List.find?, hp]
      simpa [hp] using ih

theorem nodeAttr_isSome_of_hasNode {g : NetGraph} {n : String}
    (h : hasNode g n = true) : (nodeAttr g n).isSome := by
  have hex : ∃ p ∈ g.nodes, (fun (p : String × Attrs) => p.1 == n) p = true := by
    obtain ⟨p, hp, hpm⟩ := List.any_eq_true.mp h
    exact ⟨p, hp, hpm⟩
  have hfs := List.find?_isSome.mpr hex
  rw [nodeAttr]
  simpa using hfs

theorem nodeAttr_addNode_other {g : NetGraph} {n m : String} (a : Attrs) (h : m ≠ n) :
    nodeAttr (addNode g m a) n = nodeAttr g n := by
  rw [addNode]
  by_cases hm : hasNode g m
  · rw [if_pos hm]
    show ((g.nodes.map fun (p : String × Attrs) =>
        if p.1 == m then (p.1, updateAssocMany p.2 a) else p).find?
          (fun (p : String × Attrs) => p.1 == n)).map Prod.snd = nodeAttr g n
    rw [nodeAttr]
    congr 1
    induction g.nodes with
    | nil => rfl
    | cons q t ih =>
      rw [List.map_cons]
      by_cases hqm : (q.1 == m) = true
      · have hq1 : q.1 = m := by simpa using hqm
        have hq : (q.1 == n) = false := by
          rw [hq1]
          simpa using h
        rw [if_pos hqm]
        rw [List.find?_cons_of_neg _ (by simpa using hq),
            List.find?_cons_of_neg _ (by simpa using hq)]
        exact ih
      · rw [if_neg hqm]
        by_cases hq : (q.1 == n) = true
        · rw [List.find?_cons_of_pos _ (by simpa using hq),
              List.find?_cons_of_pos _ (by simpa using hq)]
        · rw [List.find?_cons_of_neg _ (by simpa using hq),
              List.find?_cons_of_neg _ (by simpa using hq)]
          exact ih
  · rw [if_neg hm]
    show ((g.nodes ++ [(m, a)]).find? (fun (p : String × Attrs) => p.1 == n)).map Prod.snd
        = nodeAttr g n
    rw [find?_append_eq, nodeAttr]
    cases hfind : g.nodes.find? (fun (p : String × Attrs) => p.1 == n) with
    | some x => simp
    | none =>
      have hmn : ((m, a).1 == n) = false := by simpa using h
      simp [List.find?, hmn]

theorem nodeAttr_ensureNode_some {g : NetGraph} {n : String} {l : Attrs} (m : String)
    (h : nodeAttr g n = some l) : nodeAttr (ensureNode g m) n = some l := by
  rw [ensureNode]
  by_cases hm : hasNode g m
  · rw [if_pos hm]; exact h
  · rw [if_neg hm]
    show ((g.nodes ++ [(m, [])]).find? (fun (p : String × Attrs) => p.1 == n)).map Prod.snd
        = some l
    rw [find?_append_eq]
    rw [nodeAttr] at h
    cases hfind : g.nodes.find? (fun (p : String × Attrs) => p.1 == n) with
    | some x => rw [hfind] at h; simpa using h
    | none => rw [hfind] at h; simp at h

theorem nodeAttr_ensureNode_none {g : NetGraph} {n : String} (m : String)
    (h : nodeAttr g n = none) :
    nodeAttr (ensureNode g m) n = if m = n then some [] else none := by
  have hfind : g.nodes.find? (fun (p : String × Attrs) => p.1 == n) = none := by
    rw [nodeAttr] at h
    cases hf : g.nodes.find? (fun (p : String × Attrs) => p.1 == n) with
    | some x => rw [hf] at h; simp at h
    | none => rfl
  rw [ensureNode]
  by_cases hm : hasNode g m
  · rw [if_pos hm]
    by_cases hmn : m = n
    · subst hmn
      have hsome := nodeAttr_isSome_of_hasNode hm
      rw [h] at hsome
      simp at hsome
    · simp [hmn, h]
  · rw [if_neg hm]
    show ((g.nodes ++ [(m, [])]).find? (fun (p : String × Attrs) => p.1 == n)).map Prod.snd
        = if m = n then some [] else none
    rw [find?_append_eq, hfind]
    by_cases hmn : m = n
    · subst hmn
      simp [List.find?]
    · rw [if_neg hmn]
      simp only [List.find?]
      rw [show ((m, ([] : Attrs)).1 == n) = false by simpa using hmn]
      rfl

theorem nodes_addEdge (g : NetGraph) (u v : String) (a : Attrs) :
    (addEdge g u v a).nodes = (ensureNode (ensureNode g u) v).nodes := by
  rw [addEdge]
  by_cases h : hasEdge (ensureNode (ensureNode g u) v) u v <;> simp [h]

theorem nodeAttr_addEdge {g : NetGraph} {n : String} (u v : String) (a : Attrs) :
    nodeAttr (addEdge g u v a) n = nodeAttr (ensureNode (ensureNode g u) v) n := by
  rw [nodeAttr, nodeAttr, nodes_addEdge]

/-! ## C8 — dangling references become placeholder nodes -/

/-- A directed edge between the two given keys exists (with some attributes). -/
def hasEdgePair (g : NetGraph) (u v : String) : Prop :=
  ∃ a, (u, v, a) ∈ g.edges

theorem hasEdgePair_applyBuildOp {g : NetGraph} {u v : String} (op : BuildOp)
    (h : hasEdgePair g u v) : hasEdgePair (applyBuildOp g op) u v := by
  obtain ⟨a0, ha0⟩ := h
  cases op with
  | node m b =>
    exact ⟨a0, by rw [applyBuildOp, edges_addNode]; exact ha0⟩
  | edge u' v' b =>
    rw [applyBuildOp, addEdge]
    by_cases hE : hasEdge (ensureNode (ensureNode g u') v') u' v'
    · rw [if_pos hE]
      by_cases hm : ((u, v, a0).1 == u' && (u, v, a0).2.1 == v') = true
      · refine ⟨updateAssocMany a0 b, ?_⟩
        have : ((u, v, a0).1, (u, v, a0).2.1, updateAssocMany (u, v, a0).2.2 b)
            ∈ (ensureNode (ensureNode g u') v').edges.map
              (fun e => if (e.1 == u' && e.2.1 == v') = true
                then (e.1, e.2.1, updateAssocMany e.2.2 b) else e) := by
          have hmem : (u, v, a0) ∈ (ensureNode (ensureNode g u') v').edges := by
            rw [edges_ensureNode, edges_ensureNode]; exact ha0
          have := List.mem_map_of_mem
            (fun e => if (e.1 == u' && e.2.1 == v') = true
              then (e.1, e.2.1, updateAssocMany e.2.2 b) else e) hmem
          simpa [hm] using this
        simpa using this
      · refine ⟨a0, ?_⟩
        have hmem : (u, v, a0) ∈ (ensureNode (ensureNode g u') v').edges := by
          rw [edges_ensureNode, edges_ensureNode]; exact ha0
        have := List.mem_map_of_mem
          (fun e => if (e.1 == u' && e.2.1 == v') = true
            then (e.1, e.2.1, updateAssocMany e.2.2 b) else e) hmem
        simpa [hm] using this
    · rw [if_neg hE]
      refine ⟨a0, ?_⟩
      simp only [List.mem_append, edges_ensureNode]
      exact Or.inl ha0

theorem hasEdgePair_addEdge_self (g : NetGraph) (u v : String) (a : Attrs) :
    hasEdgePair (addEdge g u v a) u v := by
  rw [addEdge]
  by_cases hE : hasEdge (ensureNode (ensureNode g u) v) u v
  · rw [if_pos hE]
    obtain ⟨e, he, hpred⟩ := List.any_eq_true.mp hE
    obtain ⟨he1, he2⟩ : e.1 = u ∧ e.2.1 = v := by simpa using hpred
    refine ⟨updateAssocMany e.2.2 a, ?_⟩
    have := List.mem_map_of_mem
      (fun e => if (e.1 == u && e.2.1 == v) = true
        then (e.1, e.2.1, updateAssocMany e.2.2 a) else e) he
    simpa [he1, he2] using this
  · rw [if_neg hE]
    exact ⟨a, by simp⟩

theorem hasEdgePair_foldl {u v : String} {a : Attrs} :
    ∀ (ops : List BuildOp) (g : NetGraph), BuildOp.edge u v a ∈ ops →
      hasEdgePair (ops.foldl applyBuildOp g) u v := by
  intro ops
  induction ops with
  | nil => intro g h; exact absurd h (List.not_mem_nil _)
  | cons op ops ih =>
    intro g h
    rcases List.mem_cons.mp h with rfl | htail
    · exact @foldl_buildOp_invariant (fun g' => hasEdgePair g' u v)
        (fun _ op' h' => hasEdgePair_applyBuildOp op' h') ops _
        (hasEdgePair_addEdge_self g u v a)
    · exact ih _ htail

/-- The attribute dict of a node never named by an `add_node` call stays
empty (or absent) through a build, and any `add_edge` naming it as an
endpoint materializes it with the empty dict. -/
theorem nodeAttr_foldl_placeholder (n : String) :
    ∀ (ops : List BuildOp) (g : NetGraph),
      (∀ a, BuildOp.node n a ∉ ops) →
      (nodeAttr g n = none ∨ nodeAttr g n = some []) →
      (nodeAttr (ops.foldl applyBuildOp g) n = none
        ∨ nodeAttr (ops.foldl applyBuildOp g) n = some [])
      ∧ (nodeAttr g n = some [] → nodeAttr (ops.foldl applyBuildOp g) n = some [])
      ∧ ((∃ u v a, BuildOp.edge u v a ∈ ops ∧ (u = n ∨ v = n)) →
          nodeAttr (ops.foldl applyBuildOp g) n = some []) := by
  intro ops
  induction ops with
  | nil =>
    intro g _ hP
    exact ⟨hP, fun h => h,
      fun ⟨_, _, _, hmem, _⟩ => absurd hmem (List.not_mem_nil _)⟩
  | cons op ops ih =>
    intro g hnode hP
    have hnode' : ∀ a, BuildOp.node n a ∉ ops :=
      fun a ha => hnode a (List.mem_cons_of_mem _ ha)
    cases op with
    | node m b =>
      have hmn : m ≠ n := by
        rintro rfl
        exact hnode b (List.mem_cons_self _ _)
      have heq : nodeAttr (applyBuildOp g (.node m b)) n = nodeAttr g n :=
        nodeAttr_addNode_other b hmn
      obtain ⟨p1, p2, p3⟩ := ih (applyBuildOp g (.node m b)) hnode' (by rw [heq]; exact hP)
      refine ⟨p1, fun h => p2 (by rw [heq]; exact h), ?_⟩
      rintro ⟨u', v', a', hmem, hend⟩
      rcases List.mem_cons.mp hmem with heq' | htail
      · exact absurd heq' (by simp)
      · exact p3 ⟨u', v', a', htail, hend⟩
    | edge u' v' b =>
      have hstep_end : (u' = n ∨ v' = n) →
          nodeAttr (applyBuildOp g (.edge u' v' b)) n = some [] := by
        intro hend
        rw [show applyBuildOp g (.edge u' v' b) = addEdge g u' v' b from rfl, nodeAttr_addEdge]
        rcases hP with hnone | hempty
        · have h1 := nodeAttr_ensureNode_none u' hnone
          by_cases hu : u' = n
          · rw [if_pos hu] at h1
            exact nodeAttr_ensureNode_some v' h1
          · rw [if_neg hu] at h1
            have h2 := nodeAttr_ensureNode_none v' h1
            rcases hend with h | h
            · exact absurd h hu
            · rw [if_pos h] at h2
              exact h2
        · exact nodeAttr_ensureNode_some v' (nodeAttr_ensureNode_some u' hempty)
      have hPnext : nodeAttr (applyBuildOp g (.edge u' v' b)) n = none
          ∨ nodeAttr (applyBuildOp g (.edge u' v' b)) n = some [] := by
        rw [show applyBuildOp g (.edge u' v' b) = addEdge g u' v' b from rfl, nodeAttr_addEdge]
        rcases hP with hnone | hempty
        · have h1 := nodeAttr_ensureNode_none u' hnone
          by_cases hu : u' = n
          · rw [if_pos hu] at h1
            exact Or.inr (nodeAttr_ensureNode_some v' h1)
          · rw [if_neg hu] at h1
            have h2 := nodeAttr_ensureNode_none v' h1
            by_cases hv : v' = n
            · rw [if_pos hv] at h2
              exact Or.inr h2
            · rw [if_neg hv] at h2
              exact Or.inl h2
        · exact Or.inr (nodeAttr_ensureNode_some v' (nodeAttr_ensureNode_some u' hempty))
      obtain ⟨p1, p2, p3⟩ := ih (applyBuildOp g (.edge u' v' b)) hnode' hPnext
      refine ⟨p1, ?_, ?_⟩
      · intro hempty
        apply p2
        rw [show applyBuildOp g (.edge u' v' b) = addEdge g u' v' b from rfl, nodeAttr_addEdge]
        exact nodeAttr_ensureNode_some v' (nodeAttr_ensureNode_some u' hempty)
      · rintro ⟨u'', v'', a'', hmem, hend⟩
        rcases List.mem_cons.mp hmem with heq' | htail
        · have hend' : u' = n ∨ v' = n := by
            obtain ⟨h1, h2, _⟩ : u'' = u' ∧ v'' = v' ∧ a'' = b := by
              injection heq' with e1 e2 e3
              exact ⟨e1, e2, e3⟩
            rcases hend with h | h
            · exact Or.inl (h1 ▸ h)
            · exact Or.inr (h2 ▸ h)
          exact p2 (hstep_end hend')
        · exact p3 ⟨u'', v'', a'', htail, hend⟩

/-- No `add_node` call of the build targets a domain key whose id is not a
domain row's id. -/
theorem node_op_not_mem_domain_key (snap : Snapshot) (X : String)
    (hX : X ∉ snap.domains.map Domain.id) :
    ∀ a, BuildOp.node ("domain:" ++ X) a ∉ buildOpsCore snap := by
  intro a hmem
  rw [buildOpsCore] at hmem
  simp only [List.mem_append, List.mem_map, List.mem_flatMap, List.mem_cons] at hmem
  rcases hmem with
    ((((⟨l, _, hl⟩ | ⟨d, hd, hdq⟩) | ⟨t, _, ht⟩) | ⟨d2, _, hd2⟩) | ⟨t2, _, ht2⟩) | ⟨r, _, hr⟩
  · injection hl with h1 _
    exact layer_key_ne_domain_key l.id X h1
  · injection hdq with h1 _
    exact hX (List.mem_map.mpr ⟨d, hd, string_append_right_inj "domain:" h1⟩)
  · injection ht with h1 _
    exact term_key_ne_domain_key t.id X h1
  · exact BuildOp.noConfusion hd2
  · rcases ht2 with heq | hite
    · exact BuildOp.noConfusion heq
    · by_cases hp : pyTruthy t2.parent_term_id = true
      · rw [if_pos hp] at hite
        simp at hite
      · rw [if_neg hp] at hite
        exact absurd hite (List.not_mem_nil _)
  · exact BuildOp.noConfusion hr

/-- No `add_node` call of the build targets a term key whose id is not a term
row's id. -/
theorem node_op_not_mem_term_key (snap : Snapshot) (X : String)
    (hX : X ∉ snap.terms.map Term.id) :
    ∀ a, BuildOp.node ("term:" ++ X) a ∉ buildOpsCore snap := by
  intro a hmem
  rw [buildOpsCore] at hmem
  simp only [List.mem_append, List.mem_map, List.mem_flatMap, List.mem_cons] at hmem
  rcases hmem with
    ((((⟨l, _, hl⟩ | ⟨d, _, hdq⟩) | ⟨t, ht, htq⟩) | ⟨d2, _, hd2⟩) | ⟨t2, _, ht2⟩) | ⟨r, _, hr⟩
  · injection hl with h1 _
    exact term_key_ne_layer_key X l.id h1.symm
  · injection hdq with h1 _
    exact term_key_ne_domain_key X d.id h1.symm
  · injection htq with h1 _
    exact hX (List.mem_map.mpr ⟨t, ht, string_append_right_inj "term:" h1⟩)
  · exact BuildOp.noConfusion hd2
  · rcases ht2 with heq | hite
    · exact BuildOp.noConfusion heq
    · by_cases hp : pyTruthy t2.parent_term_id = true
      · rw [if_pos hp] at hite
        simp at hite
      · rw [if_neg hp] at hite
        exact absurd hite (List.not_mem_nil _)
  · exact BuildOp.noConfusion hr

theorem term_domain_edge_op_mem (snap : Snapshot) {t : Term} (ht : t ∈ snap.terms) :
    BuildOp.edge ("term:" ++ t.id) ("domain:" ++ t.domain_id)
        (hierEdgeAttrs (netHierPredicate snap.layers t.layer_id) "belongs_to")
      ∈ buildOpsCore snap := by
  rw [buildOpsCore]
  simp only [List.mem_append, List.mem_flatMap]
  exact Or.inl (Or.inr ⟨t, ht, List.mem_cons_self _ _⟩)

theorem term_parent_edge_op_mem (snap : Snapshot) {t : Term} (ht : t ∈ snap.terms)
    {p : String} (hp : t.parent_term_id = some p) (hpe : p ≠ "") :
    BuildOp.edge ("term:" ++ t.id) ("term:" ++ p)
        (hierEdgeAttrs (netHierPredicate snap.layers t.layer_id) "child_of")
      ∈ buildOpsCore snap := by
  rw [buildOpsCore]
  simp only [List.mem_append, List.mem_flatMap]
  refine Or.inl (Or.inr ⟨t, ht, ?_⟩)
  apply List.mem_cons_of_mem
  have htruthy : pyTruthy t.parent_term_id = true := by simp [hp, pyTruthy, hpe]
  rw [if_pos htruthy]
  have hps : pyStr t.parent_term_id = p := by rw [hp]; rfl
  rw [hps]
  exact List.mem_singleton.mpr rfl

theorem relationship_edge_op_mem (snap : Snapshot) {r : TermRelationship}
    (hr : r ∈ snap.relationships) :
    BuildOp.edge ("term:" ++ r.source_term_id) ("term:" ++ r.target_term_id) (relEdgeAttrs r)
      ∈ buildOpsCore snap := by
  rw [buildOpsCore]
  simp only [List.mem_append, List.mem_map]
  exact Or.inr ⟨r, hr, rfl⟩

/-- C8: building the property graph never fails on a dangling reference —
for a Term whose `domain_id` or `parent_term_id` matches no row, and for a
TermRelationship with an unknown endpoint, the edge is still added and the
referenced key exists as a node whose attribute dict is empty (no `type`,
`title`, or any other entity attribute). -/
theorem dangling_references_create_placeholders (snap : Snapshot) :
    (∀ t ∈ snap.terms, t.domain_id ∉ snap.domains.map Domain.id →
       hasEdgePair (buildNetworkGraph snap) ("term:" ++ t.id) ("domain:" ++ t.domain_id)
       ∧ nodeAttr (buildNetworkGraph snap) ("domain:" ++ t.domain_id) = some [])
    ∧ (∀ t ∈ snap.terms, ∀ p, t.parent_term_id = some p → p ≠ "" →
       p ∉ snap.terms.map Term.id →
       hasEdgePair (buildNetworkGraph snap) ("term:" ++ t.id) ("term:" ++ p)
       ∧ nodeAttr (buildNetworkGraph snap) ("term:" ++ p) = some [])
    ∧ (∀ r ∈ snap.relationships,
       hasEdgePair (buildNetworkGraph snap)
         ("term:" ++ r.source_term_id) ("term:" ++ r.target_term_id)
       ∧ (r.source_term_id ∉ snap.terms.map Term.id →
          nodeAttr (buildNetworkGraph snap) ("term:" ++ r.source_term_id) = some [])
       ∧ (r.target_term_id ∉ snap.terms.map Term.id →
          nodeAttr (buildNetworkGraph snap) ("term:" ++ r.target_term_id) = some [])) := by
  have hinit : ∀ n, nodeAttr emptyNetGraph n = none ∨ nodeAttr emptyNetGraph n = some [] :=
    fun n => Or.inl rfl
  refine ⟨?_, ?_, ?_⟩
  · intro t ht hdang
    constructor
    · exact hasEdgePair_foldl (buildOpsCore snap) emptyNetGraph (term_domain_edge_op_mem snap ht)
    · exact (nodeAttr_foldl_placeholder ("domain:" ++ t.domain_id) (buildOpsCore snap)
        emptyNetGraph (node_op_not_mem_domain_key snap t.domain_id hdang) (hinit _)).2.2
        ⟨"term:" ++ t.id, "domain:" ++ t.domain_id, _,
          term_domain_edge_op_mem snap ht, Or.inr rfl⟩
  · intro t ht p hp hpe hdang
    constructor
    · exact hasEdgePair_foldl (buildOpsCore snap) emptyNetGraph
        (term_parent_edge_op_mem snap ht hp hpe)
    · exact (nodeAttr_foldl_placeholder ("term:" ++ p) (buildOpsCore snap)
        emptyNetGraph (node_op_not_mem_term_key snap p hdang) (hinit _)).2.2
        ⟨"term:" ++ t.id, "term:" ++ p, _,
          term_parent_edge_op_mem snap ht hp hpe, Or.inr rfl⟩
  · intro r hr
    refine ⟨?_, ?_, ?_⟩
    · exact hasEdgePair_foldl (buildOpsCore snap) emptyNetGraph (relationship_edge_op_mem snap hr)
    · intro hdang
      exact (nodeAttr_foldl_placeholder ("term:" ++ r.source_term_id) (buildOpsCore snap)
        emptyNetGraph (node_op_not_mem_term_key snap r.source_term_id hdang) (hinit _)).2.2
        ⟨"term:" ++ r.source_term_id, "term:" ++ r.target_term_id, _,
          relationship_edge_op_mem snap hr, Or.inl rfl⟩
    · intro hdang
      exact (nodeAttr_foldl_placeholder ("term:" ++ r.target_term_id) (buildOpsCore snap)
        emptyNetGraph (node_op_not_mem_term_key snap r.target_term_id hdang) (hinit _)).2.2
        ⟨"term:" ++ r.source_term_id, "term:" ++ r.target_term_id, _,
          relationship_edge_op_mem snap hr, Or.inr rfl⟩

/-- Witness for `dangling_references_create_placeholders`: a snapshot holding
one term with a dangling `domain_id` and one relationship between two
entirely unknown term ids. -/
theorem dangling_references_create_placeholders_witness :
    (hasEdgePair (buildNetworkGraph (Snapshot.mk [] []
        [⟨"T1", "D404", "L404", some "t", some "d", some "P404", none, none, some 1⟩]
        [⟨"r", "X", "Y", "rel", none⟩]))
      ("term:" ++ "T1") ("domain:" ++ "D404")
     ∧ nodeAttr (buildNetworkGraph (Snapshot.mk [] []
        [⟨"T1", "D404", "L404", some "t", some "d", some "P404", none, none, some 1⟩]
        [⟨"r", "X", "Y", "rel", none⟩]))
      ("domain:" ++ "D404") = some [])
    ∧ nodeAttr (buildNetworkGraph (Snapshot.mk [] []
        [⟨"T1", "D404", "L404", some "t", some "d", some "P404", none, none, some 1⟩]
        [⟨"r", "X", "Y", "rel", none⟩]))
      ("term:" ++ "X") = some [] :=
  ⟨(dangling_references_create_placeholders _).1
      ⟨"T1", "D404", "L404", some "t", some "d", some "P404", none, none, some 1⟩
      (List.mem_singleton.mpr rfl) (by decide),
   ((dangling_references_create_placeholders _).2.2
      ⟨"r", "X", "Y", "rel", none⟩ (List.mem_singleton.mpr rfl)).2.1 (by decide)⟩

/-! ## C3 — per-entity isolation of the triple build -/

/-- C3 (claim as stated, refuted): a malformed Layer (missing title) with a
`primary_predicate` is consulted by its Domain's hierarchy triple, so the
Domain's triples are *not* the ones produced without the malformed Layer
(which would fall back to `cs:is_a`). -/
theorem malformed_layer_affects_domain_triples :
    (⟨domainUri "D1", vocabNS "has_part", .uri (layerUri "L1")⟩ : Triple)
        ∈ buildRDFGraph ⟨[⟨"L1", none, none, some "has_part", none, none, some 1⟩],
            [⟨"D1", "L1", some "Domain One", some "dd", none, none, some 1⟩], [], []⟩
    ∧ (⟨domainUri "D1", vocabNS "has_part", .uri (layerUri "L1")⟩ : Triple)
        ∉ buildRDFGraph ⟨[],
            [⟨"D1", "L1", some "Domain One", some "dd", none, none, some 1⟩], [], []⟩ := by
  decide

theorem mem_flatMap_erase {α β : Type} [DecidableEq α] (f : α → List β) :
    ∀ (l : List α) (e : α), e ∈ l → ∀ x : β,
      (x ∈ l.flatMap f ↔ (x ∈ (l.erase e).flatMap f ∨ x ∈ f e)) := by
  intro l
  induction l with
  | nil => intro e he; exact absurd he (List.not_mem_nil e)
  | cons a t ih =>
    intro e he x
    by_cases hae : a = e
    · subst hae
      rw [List.erase_cons_head]
      simp only [List.flatMap_cons, List.mem_append]
      tauto
    · have hne : ¬ (a == e) = true := by simpa using hae
      rw [List.erase_cons_tail]
      · have het : e ∈ t := by
          rcases List.mem_cons.mp he with h | h
          · exact absurd h.symm hae
          · exact h
        simp only [List.flatMap_cons, List.mem_append, ih e het x]
        tauto
      · simpa using hae

/-- C3 (amended): the build never aborts (it is a total function of the
snapshot, rendering missing fields as the Python string `"None"`), and a
malformed *Term* leaves every other entity's triples exactly as they would
be without it: the triple set of the full snapshot is precisely the triple
set without the term plus the term's own contribution.  (The analogous
statement for a malformed Layer fails, because Domains and Terms consult the
Layer's `primary_predicate`.) -/
theorem malformed_term_isolated (snap : Snapshot) (e : Term)
    (he : e ∈ snap.terms) (hmal : e.title = none) :
    ∀ tr : Triple, tr ∈ buildRDFGraph snap ↔
      (tr ∈ buildRDFGraph { snap with terms := snap.terms.erase e }
        ∨ tr ∈ termTriples snap.layers e) := by
  intro tr
  rw [buildRDFGraph, buildRDFGraph]
  simp only [List.mem_append]
  rw [mem_flatMap_erase (termTriples snap.layers) snap.terms e he tr]
  tauto

/-- Witness for `malformed_term_isolated`: a snapshot with a malformed term
(`title = None`) and a healthy second term; the healthy term's `type` triple
is in the build exactly as it is in the build without the malformed term. -/
theorem malformed_term_isolated_witness :
    (⟨termUri "T2", rdfType, .uri (vocabNS "Term")⟩ : Triple)
        ∈ buildRDFGraph ⟨[], [],
            [⟨"T1", "D1", "L1", none, some "d", none, none, none, some 1⟩,
             ⟨"T2", "D1", "L1", some "t2", some "d2", none, none, none, some 1⟩], []⟩
      ↔ ((⟨termUri "T2", rdfType, .uri (vocabNS "Term")⟩ : Triple)
          ∈ buildRDFGraph ⟨[], [],
              [⟨"T2", "D1", "L1", some "t2", some "d2", none, none, none, some 1⟩], []⟩
        ∨ (⟨termUri "T2", rdfType, .uri (vocabNS "Term")⟩ : Triple)
            ∈ termTriples [] ⟨"T1", "D1", "L1", none, some "d", none, none, none, some 1⟩) :=
  malformed_term_isolated
    ⟨[], [], [⟨"T1", "D1", "L1", none, some "d", none, none, none, some 1⟩,
              ⟨"T2", "D1", "L1", some "t2", some "d2", none, none, none, some 1⟩], []⟩
    ⟨"T1", "D1", "L1", none, some "d", none, none, none, some 1⟩
    (by decide) rfl _

/-! ## URI disambiguation -/

theorem append_ne_of_not_prefix {p t : String} (h : ¬ (p.data <+: t.data)) (s : String) :
    p ++ s ≠ t := by
  intro he
  apply h
  rw [← he, String.data_append]
  exact ⟨s.data, rfl⟩

theorem layerUri_inj {a b : String} (h : layerUri a = layerUri b) : a = b :=
  string_append_right_inj "layer/" (string_append_right_inj "http://context-studio.local/entity/" h)

theorem domainUri_inj {a b : String} (h : domainUri a = domainUri b) : a = b :=
  string_append_right_inj "domain/" (string_append_right_inj "http://context-studio.local/entity/" h)

theorem termUri_inj {a b : String} (h : termUri a = termUri b) : a = b :=
  string_append_right_inj "term/" (string_append_right_inj "http://context-studio.local/entity/" h)

theorem layerUri_ne_domainUri (a b : String) : layerUri a ≠ domainUri b := fun h =>
  string_append_ne_of_incomparable (p := "layer/") (q := "domain/") (by decide) (by decide) a b
    (string_append_right_inj "http://context-studio.local/entity/" h)

theorem termUri_ne_domainUri (a b : String) : termUri a ≠ domainUri b := fun h =>
  string_append_ne_of_incomparable (p := "term/") (q := "domain/") (by decide) (by decide) a b
    (string_append_right_inj "http://context-studio.local/entity/" h)

theorem termUri_ne_layerUri (a b : String) : termUri a ≠ layerUri b := fun h =>
  string_append_ne_of_incomparable (p := "term/") (q := "layer/") (by decide) (by decide) a b
    (string_append_right_inj "http://context-studio.local/entity/" h)

theorem vocabNS_ne_entityNS (a b : String) : vocabNS a ≠ entityNS b :=
  string_append_ne_of_incomparable (by decide) (by decide) a b

theorem vocabNS_ne_rdfType (s : String) : vocabNS s ≠ rdfType :=
  append_ne_of_not_prefix (by decide) s

theorem vocabNS_ne_rdfsLabel (s : String) : vocabNS s ≠ rdfsLabel :=
  append_ne_of_not_prefix (by decide) s

theorem vocabNS_ne_rdfsComment (s : String) : vocabNS s ≠ rdfsComment :=
  append_ne_of_not_prefix (by decide) s

theorem get_hierarchy_predicate_is_vocab (o : Option Layer) :
    ∃ s, get_hierarchy_predicate o = vocabNS s := by
  cases o with
  | none => exact ⟨"is_a", rfl⟩
  | some l =>
    rw [get_hierarchy_predicate]
    by_cases h : pyTruthy l.primary_predicate
    · rw [if_pos h]; exact ⟨pyStr l.primary_predicate, rfl⟩
    · rw [if_neg h]; exact ⟨"is_a", rfl⟩

/-! ## Case analyses of the per-entity triple generators -/

theorem layerTriples_mem_cases {l : Layer} {tr : Triple} (h : tr ∈ layerTriples l) :
    tr = ⟨layerUri l.id, rdfType, .uri (vocabNS "Layer")⟩
    ∨ tr = ⟨layerUri l.id, rdfsLabel, strLiteral l.title⟩
    ∨ (pyTruthy l.definition = true ∧ tr = ⟨layerUri l.id, rdfsComment, strLiteral l.definition⟩)
    ∨ (pyTruthy l.primary_predicate = true
        ∧ tr = ⟨layerUri l.id, vocabNS "primaryPredicate", strLiteral l.primary_predicate⟩)
    ∨ (∃ dt, l.created_at = some dt ∧ tr = ⟨layerUri l.id, dctermsCreated, .litDate dt⟩)
    ∨ (∃ dt, l.last_modified = some dt ∧ tr = ⟨layerUri l.id, dctermsModified, .litDate dt⟩)
    ∨ tr = ⟨layerUri l.id, vocabNS "version", intLiteral l.version⟩ := by
  rw [layerTriples] at h
  by_cases h1 : pyTruthy l.definition = true <;>
    by_cases h2 : pyTruthy l.primary_predicate = true <;>
      cases hca : l.created_at <;> cases hlm : l.last_modified <;>
        simp only [h1, h2, hca, hlm, if_true, if_false, List.mem_append, List.mem_cons,
          List.mem_singleton, List.not_mem_nil, or_false, false_or, if_pos, if_neg,
          Bool.false_eq_true, ite_true, ite_false] at h <;>
        simp only [hca, hlm, Option.some.injEq, exists_eq_left, exists_eq_left',
          reduceCtorEq, false_and, exists_false, or_false, false_or] <;>
        tauto

theorem domainTriples_mem_cases {layers : List Layer} {d : Domain} {tr : Triple}
    (h : tr ∈ domainTriples layers d) :
    tr = ⟨domainUri d.id, rdfType, .uri (vocabNS "Domain")⟩
    ∨ tr = ⟨domainUri d.id, rdfsLabel, strLiteral d.title⟩
    ∨ tr = ⟨domainUri d.id, rdfsComment, strLiteral d.definition⟩
    ∨ tr = ⟨domainUri d.id, get_hierarchy_predicate (layers.find? (fun l => l.id == d.layer_id)),
        .uri (layerUri d.layer_id)⟩
    ∨ (∃ dt, d.created_at = some dt ∧ tr = ⟨domainUri d.id, dctermsCreated, .litDate dt⟩)
    ∨ (∃ dt, d.last_modified = some dt ∧ tr = ⟨domainUri d.id, dctermsModified, .litDate dt⟩)
    ∨ tr = ⟨domainUri d.id, vocabNS "version", intLiteral d.version⟩ := by
  rw [domainTriples] at h
  cases hca : d.created_at <;> cases hlm : d.last_modified <;>
    simp only [hca, hlm, List.mem_append, List.mem_cons, List.mem_singleton,
      List.not_mem_nil, or_false, false_or] at h <;>
    simp only [hca, hlm, Option.some.injEq, exists_eq_left, exists_eq_left',
      reduceCtorEq, false_and, exists_false, or_false, false_or] <;>
    tauto

theorem termTriples_mem_cases {layers : List Layer} {t : Term} {tr : Triple}
    (h : tr ∈ termTriples layers t) :
    tr = ⟨termUri t.id, rdfType, .uri (vocabNS "Term")⟩
    ∨ tr = ⟨termUri t.id, rdfsLabel, strLiteral t.title⟩
    ∨ tr = ⟨termUri t.id, rdfsComment, strLiteral t.definition⟩
    ∨ tr = ⟨termUri t.id, get_hierarchy_predicate (layers.find? (fun l => l.id == t.layer_id)),
        .uri (domainUri t.domain_id)⟩
    ∨ tr = ⟨termUri t.id, vocabNS "belongsToLayer", .uri (layerUri t.layer_id)⟩
    ∨ (pyTruthy t.parent_term_id = true
        ∧ (tr = ⟨termUri t.id, get_hierarchy_predicate (layers.find? (fun l => l.id == t.layer_id)),
              .uri (termUri (pyStr t.parent_term_id))⟩
          ∨ tr = ⟨termUri t.id, skosBroader, .uri (termUri (pyStr t.parent_term_id))⟩
          ∨ tr = ⟨termUri (pyStr t.parent_term_id), skosNarrower, .uri (termUri t.id)⟩))
    ∨ (∃ dt, t.created_at = some dt ∧ tr = ⟨termUri t.id, dctermsCreated, .litDate dt⟩)
    ∨ (∃ dt, t.last_modified = some dt ∧ tr = ⟨termUri t.id, dctermsModified, .litDate dt⟩)
    ∨ tr = ⟨termUri t.id, vocabNS "version", intLiteral t.version⟩ := by
  rw [termTriples] at h
  by_cases h1 : pyTruthy t.parent_term_id = true <;>
    cases hca : t.created_at <;> cases hlm : t.last_modified <;>
      simp only [h1, hca, hlm, if_true, if_false, List.mem_append, List.mem_cons,
        List.mem_singleton, List.not_mem_nil, or_false, false_or,
        Bool.false_eq_true, ite_true, ite_false] at h <;>
      simp only [hca, hlm, Option.some.injEq, exists_eq_left, exists_eq_left',
        reduceCtorEq, false_and, exists_false, or_false, false_or] <;>
      tauto

theorem relationshipTriples_mem_cases {r : TermRelationship} {tr : Triple}
    (h : tr ∈ relationshipTriples r) :
    tr = ⟨termUri r.source_term_id, vocabNS r.predicate, .uri (termUri r.target_term_id)⟩ := by
  simpa [relationshipTriples] using h

/-- Membership in the built triple set decomposes by generator. -/
theorem mem_buildRDFGraph {snap : Snapshot} {tr : Triple} :
    tr ∈ buildRDFGraph snap ↔
      (∃ l ∈ snap.layers, tr ∈ layerTriples l)
      ∨ (∃ d ∈ snap.domains, tr ∈ domainTriples snap.layers d)
      ∨ (∃ t ∈ snap.terms, tr ∈ termTriples snap.layers t)
      ∨ (∃ r ∈ snap.relationships, tr ∈ relationshipTriples r) := by
  rw [buildRDFGraph]
  simp only [List.mem_append, List.mem_flatMap, or_assoc]

/-! ## Subjects and origins of built triples -/

theorem subj_of_mem_layerTriples {l : Layer} {tr : Triple} (h : tr ∈ layerTriples l) :
    tr.subj = layerUri l.id := by
  rcases layerTriples_mem_cases h with
    rfl | rfl | ⟨-, rfl⟩ | ⟨-, rfl⟩ | ⟨dt, -, rfl⟩ | ⟨dt, -, rfl⟩ | rfl <;> rfl

theorem subj_of_mem_domainTriples {layers : List Layer} {d : Domain} {tr : Triple}
    (h : tr ∈ domainTriples layers d) : tr.subj = domainUri d.id := by
  rcases domainTriples_mem_cases h with
    rfl | rfl | rfl | rfl | ⟨dt, -, rfl⟩ | ⟨dt, -, rfl⟩ | rfl <;> rfl

theorem subj_of_mem_termTriples {layers : List Layer} {t : Term} {tr : Triple}
    (h : tr ∈ termTriples layers t) :
    tr.subj = termUri t.id
    ∨ (pyTruthy t.parent_term_id = true
        ∧ tr = ⟨termUri (pyStr t.parent_term_id), skosNarrower, .uri (termUri t.id)⟩) := by
  rcases termTriples_mem_cases h with
    rfl | rfl | rfl | rfl | rfl | ⟨hp, rfl | rfl | rfl⟩ | ⟨dt, -, rfl⟩ | ⟨dt, -, rfl⟩ | rfl <;>
    first
      | exact Or.inl rfl
      | exact Or.inr ⟨by assumption, rfl⟩

/-- A built triple whose subject is a layer URI came from `_add_layers` on the
layer with that id. -/
theorem layer_subj_origin {snap : Snapshot} {tr : Triple} {a : String}
    (h : tr ∈ buildRDFGraph snap) (hs : tr.subj = layerUri a) :
    ∃ l ∈ snap.layers, l.id = a ∧ tr ∈ layerTriples l := by
  rcases mem_buildRDFGraph.mp h with ⟨l, hl, hm⟩ | ⟨d, hd, hm⟩ | ⟨t, ht, hm⟩ | ⟨r, hr, hm⟩
  · exact ⟨l, hl, layerUri_inj ((subj_of_mem_layerTriples hm).symm.trans hs), hm⟩
  · exact absurd ((subj_of_mem_domainTriples hm).symm.trans hs)
      (Ne.symm (layerUri_ne_domainUri _ _))
  · rcases subj_of_mem_termTriples hm with h1 | ⟨hp, rfl⟩
    · exact absurd (h1.symm.trans hs) (termUri_ne_layerUri _ _)
    · exact absurd hs (termUri_ne_layerUri _ _)
  · rcases relationshipTriples_mem_cases hm with rfl
    exact absurd hs (termUri_ne_layerUri _ _)

/-- A built triple whose subject is a domain URI came from `_add_domains` on
the domain with that id. -/
theorem domain_subj_origin {snap : Snapshot} {tr : Triple} {a : String}
    (h : tr ∈ buildRDFGraph snap) (hs : tr.subj = domainUri a) :
    ∃ d ∈ snap.domains, d.id = a ∧ tr ∈ domainTriples snap.layers d := by
  rcases mem_buildRDFGraph.mp h with ⟨l, hl, hm⟩ | ⟨d, hd, hm⟩ | ⟨t, ht, hm⟩ | ⟨r, hr, hm⟩
  · exact absurd ((subj_of_mem_layerTriples hm).symm.trans hs) (layerUri_ne_domainUri _ _)
  · exact ⟨d, hd, domainUri_inj ((subj_of_mem_domainTriples hm).symm.trans hs), hm⟩
  · rcases subj_of_mem_termTriples hm with h1 | ⟨hp, rfl⟩
    · exact absurd (h1.symm.trans hs) (termUri_ne_domainUri _ _)
    · exact absurd hs (termUri_ne_domainUri _ _)
  · rcases relationshipTriples_mem_cases hm with rfl
    exact absurd hs (termUri_ne_domainUri _ _)

/-- A built triple whose subject is a term URI is one of: a triple of
`_add_terms` for the term with that id, a `skos:narrower` triple of some
term's parent block, or a relationship triple. -/
theorem term_subj_classify {snap : Snapshot} {tr : Triple} {a : String}
    (h : tr ∈ buildRDFGraph snap) (hs : tr.subj = termUri a) :
    (∃ t ∈ snap.terms, t.id = a ∧ tr ∈ termTriples snap.layers t)
    ∨ (∃ t ∈ snap.terms,
        tr = ⟨termUri (pyStr t.parent_term_id), skosNarrower, .uri (termUri t.id)⟩)
    ∨ (∃ r ∈ snap.relationships,
        tr = ⟨termUri r.source_term_id, vocabNS r.predicate, .uri (termUri r.target_term_id)⟩) := by
  rcases mem_buildRDFGraph.mp h with ⟨l, hl, hm⟩ | ⟨d, hd, hm⟩ | ⟨t, ht, hm⟩ | ⟨r, hr, hm⟩
  · exact absurd ((subj_of_mem_layerTriples hm).symm.trans hs)
      (Ne.symm (termUri_ne_layerUri _ _))
  · exact absurd ((subj_of_mem_domainTriples hm).symm.trans hs)
      (Ne.symm (termUri_ne_domainUri _ _))
  · rcases subj_of_mem_termTriples hm with h1 | ⟨hp, heq⟩
    · exact Or.inl ⟨t, ht, termUri_inj (h1.symm.trans hs), hm⟩
    · exact Or.inr (Or.inl ⟨t, ht, heq⟩)
  · rcases relationshipTriples_mem_cases hm with heq
    exact Or.inr (Or.inr ⟨r, hr, heq⟩)

/-! ## Which predicate / object each generated triple can carry -/

theorem hier_pred_ne_rdfType (o : Option Layer) : get_hierarchy_predicate o ≠ rdfType := by
  obtain ⟨s, hv⟩ := get_hierarchy_predicate_is_vocab o
  rw [hv]; exact vocabNS_ne_rdfType s

theorem hier_pred_ne_rdfsLabel (o : Option Layer) : get_hierarchy_predicate o ≠ rdfsLabel := by
  obtain ⟨s, hv⟩ := get_hierarchy_predicate_is_vocab o
  rw [hv]; exact vocabNS_ne_rdfsLabel s

theorem hier_pred_ne_rdfsComment (o : Option Layer) : get_hierarchy_predicate o ≠ rdfsComment := by
  obtain ⟨s, hv⟩ := get_hierarchy_predicate_is_vocab o
  rw [hv]; exact vocabNS_ne_rdfsComment s

theorem strLiteral_ne_uri (o : Option String) (u : String) : strLiteral o ≠ .uri u := by
  simp [strLiteral]

theorem intLiteral_ne_uri (o : Option Int) (u : String) : intLiteral o ≠ .uri u := by
  cases o <;> simp [intLiteral]

theorem layerTriples_pred_type {l : Layer} {tr : Triple} (h : tr ∈ layerTriples l)
    (hp : tr.pred = rdfType) : tr = ⟨layerUri l.id, rdfType, .uri (vocabNS "Layer")⟩ := by
  rcases layerTriples_mem_cases h with
    rfl | rfl | ⟨h1, rfl⟩ | ⟨h2, rfl⟩ | ⟨dt, -, rfl⟩ | ⟨dt, -, rfl⟩ | rfl <;>
    first | rfl | (simp [vocabNS, rdfType, rdfsLabel, rdfsComment, skosBroader, skosNarrower, dctermsCreated, dctermsModified] at hp)

theorem layerTriples_pred_label {l : Layer} {tr : Triple} (h : tr ∈ layerTriples l)
    (hp : tr.pred = rdfsLabel) : tr = ⟨layerUri l.id, rdfsLabel, strLiteral l.title⟩ := by
  rcases layerTriples_mem_cases h with
    rfl | rfl | ⟨h1, rfl⟩ | ⟨h2, rfl⟩ | ⟨dt, -, rfl⟩ | ⟨dt, -, rfl⟩ | rfl <;>
    first | rfl | (simp [vocabNS, rdfType, rdfsLabel, rdfsComment, skosBroader, skosNarrower, dctermsCreated, dctermsModified] at hp)

theorem layerTriples_pred_comment {l : Layer} {tr : Triple} (h : tr ∈ layerTriples l)
    (hp : tr.pred = rdfsComment) :
    pyTruthy l.definition = true ∧ tr = ⟨layerUri l.id, rdfsComment, strLiteral l.definition⟩ := by
  rcases layerTriples_mem_cases h with
    rfl | rfl | ⟨h1, rfl⟩ | ⟨h2, rfl⟩ | ⟨dt, -, rfl⟩ | ⟨dt, -, rfl⟩ | rfl <;>
    first | exact ⟨by assumption, rfl⟩ | (simp [vocabNS, rdfType, rdfsLabel, rdfsComment, skosBroader, skosNarrower, dctermsCreated, dctermsModified] at hp)

theorem domainTriples_pred_type {layers : List Layer} {d : Domain} {tr : Triple}
    (h : tr ∈ domainTriples layers d) (hp : tr.pred = rdfType) :
    tr = ⟨domainUri d.id, rdfType, .uri (vocabNS "Domain")⟩ := by
  rcases domainTriples_mem_cases h with
    rfl | rfl | rfl | rfl | ⟨dt, -, rfl⟩ | ⟨dt, -, rfl⟩ | rfl <;>
    first
      | rfl
      | exact absurd hp (hier_pred_ne_rdfType _)
      | (simp [vocabNS, rdfType, rdfsLabel, rdfsComment, skosBroader, skosNarrower, dctermsCreated, dctermsModified] at hp)

theorem domainTriples_pred_label {layers : List Layer} {d : Domain} {tr : Triple}
    (h : tr ∈ domainTriples layers d) (hp : tr.pred = rdfsLabel) :
    tr = ⟨domainUri d.id, rdfsLabel, strLiteral d.title⟩ := by
  rcases domainTriples_mem_cases h with
    rfl | rfl | rfl | rfl | ⟨dt, -, rfl⟩ | ⟨dt, -, rfl⟩ | rfl <;>
    first
      | rfl
      | exact absurd hp (hier_pred_ne_rdfsLabel _)
      | (simp [vocabNS, rdfType, rdfsLabel, rdfsComment, skosBroader, skosNarrower, dctermsCreated, dctermsModified] at hp)

theorem domainTriples_pred_comment {layers : List Layer} {d : Domain} {tr : Triple}
    (h : tr ∈ domainTriples layers d) (hp : tr.pred = rdfsComment) :
    tr = ⟨domainUri d.id, rdfsComment, strLiteral d.definition⟩ := by
  rcases domainTriples_mem_cases h with
    rfl | rfl | rfl | rfl | ⟨dt, -, rfl⟩ | ⟨dt, -, rfl⟩ | rfl <;>
    first
      | rfl
      | exact absurd hp (hier_pred_ne_rdfsComment _)
      | (simp [vocabNS, rdfType, rdfsLabel, rdfsComment, skosBroader, skosNarrower, dctermsCreated, dctermsModified] at hp)

theorem domainTriples_obj_layer {layers : List Layer} {d : Domain} {tr : Triple}
    (h : tr ∈ domainTriples layers d) (ho : tr.obj = .uri (layerUri d.layer_id)) :
    tr = ⟨domainUri d.id, get_hierarchy_predicate (layers.find? (fun l => l.id == d.layer_id)),
      .uri (layerUri d.layer_id)⟩ := by
  rcases domainTriples_mem_cases h with
    rfl | rfl | rfl | rfl | ⟨dt, -, rfl⟩ | ⟨dt, -, rfl⟩ | rfl
  · exact absurd (RDFTerm.uri.inj ho) (vocabNS_ne_entityNS _ _)
  · exact absurd ho (strLiteral_ne_uri _ _)
  · exact absurd ho (strLiteral_ne_uri _ _)
  · rfl
  · exact absurd ho (by simp)
  · exact absurd ho (by simp)
  · exact absurd ho (intLiteral_ne_uri _ _)

theorem termTriples_pred_type {layers : List Layer} {t : Term} {tr : Triple}
    (h : tr ∈ termTriples layers t) (hp : tr.pred = rdfType) :
    tr = ⟨termUri t.id, rdfType, .uri (vocabNS "Term")⟩ := by
  rcases termTriples_mem_cases h with
    rfl | rfl | rfl | rfl | rfl | ⟨hq, rfl | rfl | rfl⟩ | ⟨dt, -, rfl⟩ | ⟨dt, -, rfl⟩ | rfl <;>
    first
      | rfl
      | exact absurd hp (hier_pred_ne_rdfType _)
      | (simp [vocabNS, rdfType, rdfsLabel, rdfsComment, skosBroader, skosNarrower, dctermsCreated, dctermsModified] at hp)

theorem termTriples_pred_label {layers : List Layer} {t : Term} {tr : Triple}
    (h : tr ∈ termTriples layers t) (hp : tr.pred = rdfsLabel) :
    tr = ⟨termUri t.id, rdfsLabel, strLiteral t.title⟩ := by
  rcases termTriples_mem_cases h with
    rfl | rfl | rfl | rfl | rfl | ⟨hq, rfl | rfl | rfl⟩ | ⟨dt, -, rfl⟩ | ⟨dt, -, rfl⟩ | rfl <;>
    first
      | rfl
      | exact absurd hp (hier_pred_ne_rdfsLabel _)
      | (simp [vocabNS, rdfType, rdfsLabel, rdfsComment, skosBroader, skosNarrower, dctermsCreated, dctermsModified] at hp)

theorem termTriples_pred_comment {layers : List Layer} {t : Term} {tr : Triple}
    (h : tr ∈ termTriples layers t) (hp : tr.pred = rdfsComment) :
    tr = ⟨termUri t.id, rdfsComment, strLiteral t.definition⟩ := by
  rcases termTriples_mem_cases h with
    rfl | rfl | rfl | rfl | rfl | ⟨hq, rfl | rfl | rfl⟩ | ⟨dt, -, rfl⟩ | ⟨dt, -, rfl⟩ | rfl <;>
    first
      | rfl
      | exact absurd hp (hier_pred_ne_rdfsComment _)
      | (simp [vocabNS, rdfType, rdfsLabel, rdfsComment, skosBroader, skosNarrower, dctermsCreated, dctermsModified] at hp)

theorem termTriples_obj_domain {layers : List Layer} {t : Term} {tr : Triple}
    (h : tr ∈ termTriples layers t) (ho : tr.obj = .uri (domainUri t.domain_id)) :
    tr = ⟨termUri t.id, get_hierarchy_predicate (layers.find? (fun l => l.id == t.layer_id)),
      .uri (domainUri t.domain_id)⟩ := by
  rcases termTriples_mem_cases h with
    rfl | rfl | rfl | rfl | rfl | ⟨hq, rfl | rfl | rfl⟩ | ⟨dt, -, rfl⟩ | ⟨dt, -, rfl⟩ | rfl
  · exact absurd (RDFTerm.uri.inj ho) (vocabNS_ne_entityNS _ _)
  · exact absurd ho (strLiteral_ne_uri _ _)
  · exact absurd ho (strLiteral_ne_uri _ _)
  · rfl
  · exact absurd (RDFTerm.uri.inj ho) (layerUri_ne_domainUri _ _)
  · exact absurd (RDFTerm.uri.inj ho) (termUri_ne_domainUri _ _)
  · exact absurd (RDFTerm.uri.inj ho) (termUri_ne_domainUri _ _)
  · exact absurd (RDFTerm.uri.inj ho) (termUri_ne_domainUri _ _)
  · exact absurd ho (by simp)
  · exact absurd ho (by simp)
  · exact absurd ho (intLiteral_ne_uri _ _)

/-! ## The triple-model invariant (corrected) -/

/-- "Exactly one triple with this subject and this predicate, namely `c`":
`c` is in the graph, and every graph triple carrying that subject and
predicate is `c` (the rdflib graph is a set, so this is exactly-one). -/
def hasUniqueSP (G : List Triple) (s p : String) (c : Triple) : Prop :=
  c ∈ G ∧ ∀ tr ∈ G, tr.subj = s → tr.pred = p → tr = c

/-- "Exactly one triple with this subject and this object, namely `c`". -/
def hasUniqueSO (G : List Triple) (s : String) (o : RDFTerm) (c : Triple) : Prop :=
  c ∈ G ∧ ∀ tr ∈ G, tr.subj = s → tr.obj = o → tr = c

/-- The corrected per-entity shape of the built triple set: unique `rdf:type`
and `rdfs:label` triples for every entity; an `rdfs:comment` triple for a
layer exactly when its definition is truthy, but *unconditionally* for every
domain and term (rendering a missing definition as the literal `"None"`);
a unique hierarchy triple to the structural parent under the predicate
chosen by `_get_hierarchy_predicate`; and the skos broader/narrower pair for
a term whose `parent_term_id` is truthy. -/
def TripleModelInvariant (snap : Snapshot) : Prop :=
  (∀ l ∈ snap.layers,
      hasUniqueSP (buildRDFGraph snap) (layerUri l.id) rdfType
        ⟨layerUri l.id, rdfType, .uri (vocabNS "Layer")⟩
    ∧ hasUniqueSP (buildRDFGraph snap) (layerUri l.id) rdfsLabel
        ⟨layerUri l.id, rdfsLabel, strLiteral l.title⟩
    ∧ ((∃ tr ∈ buildRDFGraph snap, tr.subj = layerUri l.id ∧ tr.pred = rdfsComment)
        ↔ pyTruthy l.definition = true)
    ∧ (pyTruthy l.definition = true →
        hasUniqueSP (buildRDFGraph snap) (layerUri l.id) rdfsComment
          ⟨layerUri l.id, rdfsComment, strLiteral l.definition⟩))
  ∧ (∀ d ∈ snap.domains,
      hasUniqueSP (buildRDFGraph snap) (domainUri d.id) rdfType
        ⟨domainUri d.id, rdfType, .uri (vocabNS "Domain")⟩
    ∧ hasUniqueSP (buildRDFGraph snap) (domainUri d.id) rdfsLabel
        ⟨domainUri d.id, rdfsLabel, strLiteral d.title⟩
    ∧ hasUniqueSP (buildRDFGraph snap) (domainUri d.id) rdfsComment
        ⟨domainUri d.id, rdfsComment, strLiteral d.definition⟩
    ∧ hasUniqueSO (buildRDFGraph snap) (domainUri d.id) (.uri (layerUri d.layer_id))
        ⟨domainUri d.id,
         get_hierarchy_predicate (snap.layers.find? (fun l => l.id == d.layer_id)),
         .uri (layerUri d.layer_id)⟩)
  ∧ (∀ t ∈ snap.terms,
      hasUniqueSP (buildRDFGraph snap) (termUri t.id) rdfType
        ⟨termUri t.id, rdfType, .uri (vocabNS "Term")⟩
    ∧ hasUniqueSP (buildRDFGraph snap) (termUri t.id) rdfsLabel
        ⟨termUri t.id, rdfsLabel, strLiteral t.title⟩
    ∧ hasUniqueSP (buildRDFGraph snap) (termUri t.id) rdfsComment
        ⟨termUri t.id, rdfsComment, strLiteral t.definition⟩
    ∧ hasUniqueSO (buildRDFGraph snap) (termUri t.id) (.uri (domainUri t.domain_id))
        ⟨termUri t.id,
         get_hierarchy_predicate (snap.layers.find? (fun l => l.id == t.layer_id)),
         .uri (domainUri t.domain_id)⟩
    ∧ (pyTruthy t.parent_term_id = true →
        ⟨termUri t.id, skosBroader, .uri (termUri (pyStr t.parent_term_id))⟩ ∈ buildRDFGraph snap
        ∧ ⟨termUri (pyStr t.parent_term_id), skosNarrower, .uri (termUri t.id)⟩ ∈ buildRDFGraph snap))

/-- A snapshot exercising every branch of the triple builders: one layer with
a truthy `primary_predicate` and definition, one domain with a *missing*
definition, a term with a truthy parent and one without, one relationship. -/
def exSnapC6 : Snapshot :=
  ⟨[⟨"L1", some "Layer One", some "Top layer", some "contains", some "2024-01-01", none, some 1⟩],
   [⟨"D1", "L1", some "Domain One", none, none, none, some 1⟩],
   [⟨"T1", "D1", "L1", some "Term One", some "A term", none, none, none, some 1⟩,
    ⟨"T2", "D1", "L1", some "Term Two", none, some "T1", none, none, some 1⟩],
   [⟨"R1", "T1", "T2", "related_to", none⟩]⟩

/-- C6 (counterexample): a domain whose `definition` is absent (`None`)
nevertheless receives an `rdfs:comment` triple - `_add_domains` adds
`Literal(str(domain.definition))` unconditionally, rendering the comment as
the literal `"None"`.  This refutes "it has a comment triple exactly when its
definition is present". -/
theorem domain_comment_without_definition :
    (∀ d ∈ exSnapC6.domains, d.definition = none)
    ∧ ⟨domainUri "D1", rdfsComment, .litStr "None"⟩ ∈ buildRDFGraph exSnapC6 := by
  decide

/-- C6 (amended): in the triple set built from any snapshot with duplicate-free
entity ids, every layer, domain and term has exactly one `rdf:type` triple and
exactly one `rdfs:label` triple; a layer has an `rdfs:comment` triple exactly
when its definition is truthy, while every domain and term has one
unconditionally (a missing definition becomes the literal `"None"`); exactly
one hierarchy triple links each domain to its layer and each term to its
domain, under the owning layer's `primary_predicate` (default `cs:is_a`); and
a term with a truthy `parent_term_id` additionally gets the
`skos:broader` / `skos:narrower` pair in both directions. -/
theorem triple_model_invariant (snap : Snapshot)
    (hL : (snap.layers.map Layer.id).Nodup)
    (hD : (snap.domains.map Domain.id).Nodup)
    (hT : (snap.terms.map Term.id).Nodup) :
    TripleModelInvariant snap := by
  have hmemL : ∀ {l : Layer}, l ∈ snap.layers →
      ∀ {tr : Triple}, tr ∈ layerTriples l → tr ∈ buildRDFGraph snap := by
    intro l hl tr htr; exact mem_buildRDFGraph.mpr (Or.inl ⟨_, hl, htr⟩)
  have hmemD : ∀ {d : Domain}, d ∈ snap.domains →
      ∀ {tr : Triple}, tr ∈ domainTriples snap.layers d → tr ∈ buildRDFGraph snap := by
    intro d hd tr htr; exact mem_buildRDFGraph.mpr (Or.inr (Or.inl ⟨_, hd, htr⟩))
  have hmemT : ∀ {t : Term}, t ∈ snap.terms →
      ∀ {tr : Triple}, tr ∈ termTriples snap.layers t → tr ∈ buildRDFGraph snap := by
    intro t ht tr htr; exact mem_buildRDFGraph.mpr (Or.inr (Or.inr (Or.inl ⟨_, ht, htr⟩)))
  unfold TripleModelInvariant hasUniqueSP hasUniqueSO
  refine ⟨?_, ?_, ?_⟩
  · -- layers
    intro l hl
    have hshape : ∀ {tr : Triple}, tr ∈ buildRDFGraph snap → tr.subj = layerUri l.id →
        tr ∈ layerTriples l := by
      intro tr htr hs
      obtain ⟨l', hl', hid, hm⟩ := layer_subj_origin htr hs
      rw [List.inj_on_of_nodup_map hL hl' hl hid] at hm
      exact hm
    refine ⟨⟨hmemL hl (by simp [layerTriples]),
             fun tr htr hs hp => layerTriples_pred_type (hshape htr hs) hp⟩,
            ⟨hmemL hl (by simp [layerTriples]),
             fun tr htr hs hp => layerTriples_pred_label (hshape htr hs) hp⟩,
            ⟨?_, ?_⟩, ?_⟩
    · rintro ⟨tr, htr, hs, hp⟩
      exact (layerTriples_pred_comment (hshape htr hs) hp).1
    · intro hdef
      exact ⟨⟨layerUri l.id, rdfsComment, strLiteral l.definition⟩,
             hmemL hl (by simp [layerTriples, hdef]), rfl, rfl⟩
    · intro hdef
      exact ⟨hmemL hl (by simp [layerTriples, hdef]),
             fun tr htr hs hp => (layerTriples_pred_comment (hshape htr hs) hp).2⟩
  · -- domains
    intro d hd
    have hshape : ∀ {tr : Triple}, tr ∈ buildRDFGraph snap → tr.subj = domainUri d.id →
        tr ∈ domainTriples snap.layers d := by
      intro tr htr hs
      obtain ⟨d', hd', hid, hm⟩ := domain_subj_origin htr hs
      rw [List.inj_on_of_nodup_map hD hd' hd hid] at hm
      exact hm
    exact ⟨⟨hmemD hd (by simp [domainTriples]),
            fun tr htr hs hp => domainTriples_pred_type (hshape htr hs) hp⟩,
           ⟨hmemD hd (by simp [domainTriples]),
            fun tr htr hs hp => domainTriples_pred_label (hshape htr hs) hp⟩,
           ⟨hmemD hd (by simp [domainTriples]),
            fun tr htr hs hp => domainTriples_pred_comment (hshape htr hs) hp⟩,
           ⟨hmemD hd (by simp [domainTriples]),
            fun tr htr hs ho => domainTriples_obj_layer (hshape htr hs) ho⟩⟩
  · -- terms
    intro t ht
    have hself : ∀ {tr : Triple}, tr ∈ buildRDFGraph snap → tr.subj = termUri t.id →
        tr ∈ termTriples snap.layers t
        ∨ (∃ t' ∈ snap.terms,
            tr = ⟨termUri (pyStr t'.parent_term_id), skosNarrower, .uri (termUri t'.id)⟩)
        ∨ (∃ r ∈ snap.relationships,
            tr = ⟨termUri r.source_term_id, vocabNS r.predicate,
                  .uri (termUri r.target_term_id)⟩) := by
      intro tr htr hs
      rcases term_subj_classify htr hs with ⟨t', ht', hid, hm⟩ | h2 | h3
      · rw [List.inj_on_of_nodup_map hT ht' ht hid] at hm
        exact Or.inl hm
      · exact Or.inr (Or.inl h2)
      · exact Or.inr (Or.inr h3)
    refine ⟨⟨hmemT ht (by simp [termTriples]), ?_⟩,
            ⟨hmemT ht (by simp [termTriples]), ?_⟩,
            ⟨hmemT ht (by simp [termTriples]), ?_⟩,
            ⟨hmemT ht (by simp [termTriples]), ?_⟩, ?_⟩
    · intro tr htr hs hp
      rcases hself htr hs with hm | ⟨t', ht', rfl⟩ | ⟨r, hr, rfl⟩
      · exact termTriples_pred_type hm hp
      · exact absurd hp (by simp [skosNarrower, rdfType])
      · exact absurd hp (vocabNS_ne_rdfType _)
    · intro tr htr hs hp
      rcases hself htr hs with hm | ⟨t', ht', rfl⟩ | ⟨r, hr, rfl⟩
      · exact termTriples_pred_label hm hp
      · exact absurd hp (by simp [skosNarrower, rdfsLabel])
      · exact absurd hp (vocabNS_ne_rdfsLabel _)
    · intro tr htr hs hp
      rcases hself htr hs with hm | ⟨t', ht', rfl⟩ | ⟨r, hr, rfl⟩
      · exact termTriples_pred_comment hm hp
      · exact absurd hp (by simp [skosNarrower, rdfsComment])
      · exact absurd hp (vocabNS_ne_rdfsComment _)
    · intro tr htr hs ho
      rcases hself htr hs with hm | ⟨t', ht', rfl⟩ | ⟨r, hr, rfl⟩
      · exact termTriples_obj_domain hm ho
      · exact absurd (RDFTerm.uri.inj ho) (termUri_ne_domainUri _ _)
      · exact absurd (RDFTerm.uri.inj ho) (termUri_ne_domainUri _ _)
    · intro hp
      exact ⟨hmemT ht (by simp [termTriples, hp]), hmemT ht (by simp [termTriples, hp])⟩

/-- The invariant evaluated on the concrete snapshot `exSnapC6`, whose id
lists are duplicate-free. -/
theorem triple_model_invariant_witness : TripleModelInvariant exSnapC6 :=
  triple_model_invariant exSnapC6 (by decide) (by decide) (by decide)
